import Mathlib

/-! HelixDB storage engine.

A shallow embedding of `internal/storage/engine.go` and `internal/storage/wal.go`.

* Go maps are association lists with pairwise distinct keys (`GoMap`); the order in
  which a `range` loop visits a map is an explicit argument of the function that loops.
* The WAL file is the list of its bytes; what the operating system does to a write
  (success, short write, failed sync) is an explicit argument of `WAL.Write`.
* `time.Now()` is an explicit argument; an instant is its number of nanoseconds since
  the Unix epoch (all instants the engine creates are UTC).
* Document payloads are the values `encoding/json` decodes into `interface{}`.
  A `float64` is carried exactly, by an integer or by mantissa and exponent, and is
  read and written through its decimal texts as `strconv` does; NaN is not modelled.
* The maps a collection and the engine hold are non-nil, as `GetCollection` and
  `saveToDisk` make them; the data file enters `NewEngine` as the `diskData` read from it.
* Locks and the background snapshot goroutine are not modelled: every operation is
  taken as one sequential step on the in-memory state and the WAL file.
-/

namespace HelixDB

/-! ## Bytes and text -/

/-- Contents of a byte slice, one number below 256 per byte. -/
abbrev Bytes := List Nat

/-- UTF-8 encoding of one code point (Go strings hold UTF-8). -/
def utf8Char (c : Char) : Bytes :=
  let n := c.toNat
  if n < 0x80 then [n]
  else if n < 0x800 then [0xC0 + n / 64, 0x80 + n % 64]
  else if n < 0x10000 then [0xE0 + n / 4096, 0x80 + n / 64 % 64, 0x80 + n % 64]
  else [0xF0 + n / 262144, 0x80 + n / 4096 % 64, 0x80 + n / 64 % 64, 0x80 + n % 64]

/-- The bytes of a Go string. -/
def utf8 (s : String) : Bytes :=
  s.toList.flatMap utf8Char

/-- Bytewise `<` on strings, the order `sort.Strings` and `strings.Compare` use. -/
def bytesLt : Bytes → Bytes → Bool
  | [], [] => false
  | [], _ :: _ => true
  | _ :: _, [] => false
  | a :: as, b :: bs => if a < b then true else if b < a then false else bytesLt as bs

/-- Insert a keyed item into a list sorted by key. -/
def insertByKey {α : Type} (k : String) (x : α) : List (String × α) → List (String × α)
  | [] => [(k, x)]
  | (k', y) :: rest =>
    if bytesLt (utf8 k') (utf8 k) then (k', y) :: insertByKey k x rest
    else (k, x) :: (k', y) :: rest

/-- Sort keyed items by key (both `fmt` and `encoding/json` visit a map by sorted key). -/
def sortByKey {α : Type} : List (String × α) → List (String × α)
  | [] => []
  | (k, x) :: rest => insertByKey k x (sortByKey rest)

/-- Lowercase hexadecimal digit of a number below 16. -/
def hexDigit (n : Nat) : Char :=
  "0123456789abcdef".toList.getD n '0'

/-- Decimal digits of a natural number, most significant first. -/
def natDigits (n : Nat) : List Char :=
  (Nat.toDigits 10 n)

/-! ## Values held in `map[string]interface{}` -/

/-- A value as `encoding/json` decodes it into `interface{}`: `nil`, `bool`, `float64`,
`string`, `[]interface{}`, `map[string]interface{}`. A `float64` is `num n`, the
conversion `float64(n)` of an integer (exact up to 2^53), or `float neg mant exp`, the
`float64` nearest to `mant * 2^exp`, negative when `neg` (negative zero for `mant = 0`);
a magnitude beyond the range of `float64` stands for the infinity of its sign. The
decoder gives `num` to an integer of magnitude at most 2^53 and `float` to every other
number. -/
inductive Value where
  | null : Value
  | bool (b : Bool) : Value
  | num (n : Int) : Value
  | float (neg : Bool) (mant : Nat) (exp : Int) : Value
  | str (s : String) : Value
  | arr (xs : List Value) : Value
  | obj (kvs : List (String × Value)) : Value

/-- A non-nil `map[string]interface{}`: its bindings, the first one for a key counting. -/
abbrev Fields := List (String × Value)

/-- Lookup `m[key]` in a `map[string]interface{}`. -/
def Fields.get : Fields → String → Option Value
  | [], _ => none
  | (k, v) :: rest, key => if k = key then some v else Fields.get rest key

/-- Drop trailing zero digits. -/
def stripTrailingZeros (ds : List Char) : List Char :=
  (ds.reverse.dropWhile (fun c => c = '0')).reverse

/-! ## `float64` and its decimal texts -/

/-- The finite `float64` nearest to the fraction `p / q` (ties to the even mantissa), as
a mantissa `m` below 2^53 and an exponent `e` from -1074 on, the value being
`m * 2^e`; `none` when the fraction is beyond the range of `float64`. -/
def roundFloat (p q : Nat) : Option (Nat × Int) :=
  if p = 0 then some (0, -1074)
  else
    let g : Int := ((Nat.toDigits 2 p).length : Int) - ((Nat.toDigits 2 q).length : Int) - 52
    let below : Bool :=
      if 0 ≤ g then decide (p < q * 2 ^ (g.toNat + 52))
      else decide (p * 2 ^ (-g).toNat < q * 2 ^ 52)
    let e : Int := max (if below then g - 1 else g) (-1074)
    let num := if 0 ≤ e then p else p * 2 ^ (-e).toNat
    let den := if 0 ≤ e then q * 2 ^ e.toNat else q
    let m0 := num / den
    let r := num % den
    let m := if den < 2 * r ∨ (2 * r = den ∧ m0 % 2 = 1) then m0 + 1 else m0
    if m = 2 ^ 53 then (if 971 < e + 1 then none else some (2 ^ 52, e + 1))
    else if 971 < e then none
    else some (m, e)

/-- The order `<` of two non-negative finite `float64`, each given by mantissa and
exponent as `roundFloat` returns them. -/
def floatLt (a b : Nat × Int) : Bool :=
  a.2 < b.2 || (a.2 = b.2 && a.1 < b.1)

/-- The shortest decimal that reads back as the `float64` `m * 2^e`, found as
`strconv` finds it: the digits of the value are cut after `k` places, for
`k = 0, 1, ...`, until the cut value or the next value above it at that place lies
between the midpoints to the neighbouring floats; of two that do, the nearer one is
taken. The result `(c, t)` stands for the decimal `c * 10^t`. -/
def shortestLoop (v lo hi d : Nat) (inclusive : Bool) (dp : Int) : Nat → Nat → Nat × Int
  | 0, k => (v * 10 ^ (k - dp).toNat / (d * 10 ^ (dp - k).toNat), dp - k)
  | fuel + 1, k =>
    let t : Int := dp - k
    let a := 10 ^ (-t).toNat
    let u := d * 10 ^ t.toNat
    let c := v * a / u
    let down := c * u
    let up := down + u
    let okdown : Bool := lo * a < down || (inclusive && lo * a = down)
    let okup : Bool := up < hi * a || (inclusive && up = hi * a)
    if okdown && okup then
      (if v * a - down < up - v * a then (c, t)
       else if up - v * a < v * a - down then (c + 1, t)
       else if c % 2 = 0 then (c, t) else (c + 1, t))
    else if okdown then (c, t)
    else if okup then (c + 1, t)
    else shortestLoop v lo hi d inclusive dp fuel (k + 1)

/-- The position of the decimal point of `n / d`, for `n > 0`: the `dp` with
`10^(dp-1) <= n / d < 10^dp`. -/
def decimalPoint (n d : Nat) : Int :=
  if d ≤ n then ((Nat.toDigits 10 (n / d)).length : Int)
  else
    let j := (Nat.toDigits 10 d).length - (Nat.toDigits 10 n).length
    if d ≤ n * 10 ^ j then 1 - (j : Int) else - (j : Int)

/-- The shortest digits of the `float64` `m * 2^e`, `m > 0`: the digits without trailing
zeros and the position `dp` of the decimal point, the value being `0.d1d2... * 10^dp`. -/
def shortestDigits (m : Nat) (e : Int) : List Char × Int :=
  let s := 2 ^ (e - 2).toNat
  let d := 2 ^ (2 - e).toNat
  let v := 4 * m * s
  let lo := (if 2 ^ 52 < m ∨ e = -1074 then 4 * m - 2 else 4 * m - 1) * s
  let hi := (4 * m + 2) * s
  let r := shortestLoop v lo hi d (m % 2 = 0) (decimalPoint v d) 20 0
  let ds := Nat.toDigits 10 r.1
  (stripTrailingZeros ds, (ds.length : Int) + r.2)

/-- The format `%e` with the shortest digits: `d.ddde+XX`, the exponent with two digits
at least. -/
def formatE (ds : List Char) (dp : Int) : List Char :=
  let x := dp - 1
  let xs := Nat.toDigits 10 x.natAbs
  ds.take 1 ++ (if 1 < ds.length then '.' :: ds.drop 1 else [])
    ++ ['e', if x < 0 then '-' else '+'] ++ (if xs.length < 2 then '0' :: xs else xs)

/-- The format `%f` with the shortest digits: the digits with the decimal point in
place, zeros filling up. -/
def formatF (ds : List Char) (dp : Int) : List Char :=
  (if 0 < dp then (List.range dp.toNat).map (fun i => ds.getD i '0') else ['0'])
    ++ (if dp < (ds.length : Int) then
          '.' :: (List.range ((ds.length : Int) - dp).toNat).map
            (fun i => if 0 ≤ dp + (i : Int) then ds.getD (dp + (i : Int)).toNat '0' else '0')
        else [])

/-- The text `%v` prints for the `float64` nearest to `p / q`, negative when `neg`:
the shortest digits, in the format `%e` when the decimal exponent is below -4 or not
below 6 and in the format `%f` otherwise. -/
def sprintRatio (neg : Bool) (p q : Nat) : String :=
  match roundFloat p q with
  | none => if neg then "-Inf" else "+Inf"
  | some (m, e) =>
    String.mk ((if neg then ['-'] else []) ++
      (if m = 0 then ['0']
       else
        let r := shortestDigits m e
        if r.2 - 1 < -4 ∨ 6 ≤ r.2 - 1 then formatE r.1 r.2 else formatF r.1 r.2))

/-- The bytes `json.Marshal` writes for the `float64` nearest to `p / q`, negative when
`neg`: the shortest digits, in the format `%e` with the exponent cleaned up (`e-7` for
`e-07`) when the magnitude is below `1e-6` or not below `1e21` and in the format `%f`
otherwise; `none` when the value is infinite, which `json.Marshal` refuses. -/
def jsonRatio (neg : Bool) (p q : Nat) : Option Bytes :=
  match roundFloat p q with
  | none => none
  | some (m, e) =>
    some (((if neg then ['-'] else []) ++
      (if m = 0 then ['0']
       else
        let r := shortestDigits m e
        let small : Bool :=
          match roundFloat 1 1000000 with
          | some c => floatLt (m, e) c
          | none => false
        let large : Bool :=
          match roundFloat (10 ^ 21) 1 with
          | some c => !floatLt (m, e) c
          | none => false
        if small || large then
          let x := r.2 - 1
          r.1.take 1 ++ (if 1 < r.1.length then '.' :: r.1.drop 1 else [])
            ++ ['e', if x < 0 then '-' else '+'] ++ Nat.toDigits 10 x.natAbs
        else formatF r.1 r.2)).map Char.toNat)

/-- The verb `%v` on the `float64` of an integer. -/
def sprintFloat (n : Int) : String :=
  sprintRatio (decide (n < 0)) n.natAbs 1

mutual
/-- The text of `fmt.Sprintf("%v", v)`. -/
def sprintV : Value → String
  | .null => "<nil>"
  | .bool b => if b then "true" else "false"
  | .num n => sprintFloat n
  | .float neg m e => sprintRatio neg (m * 2 ^ e.toNat) (2 ^ (-e).toNat)
  | .str s => s
  | .arr xs => "[" ++ " ".intercalate (sprintList xs) ++ "]"
  | .obj kvs =>
    "map[" ++ " ".intercalate ((sortByKey (sprintFields kvs)).map
      (fun p => p.1 ++ ":" ++ p.2)) ++ "]"
/-- The `%v` texts of the elements of a slice. -/
def sprintList : List Value → List String
  | [] => []
  | x :: xs => sprintV x :: sprintList xs
/-- The `%v` texts of the values of a map, by key. -/
def sprintFields : List (String × Value) → List (String × String)
  | [] => []
  | (k, v) :: rest => (k, sprintV v) :: sprintFields rest
end

/-! ## `encoding/json` output -/

/-- Bytes `json.Marshal` emits for one code point inside a string literal (HTML
escaping on, as `json.Marshal` has it). -/
def jsonEscapeChar (c : Char) : Bytes :=
  let n := c.toNat
  if c = '\\' ∨ c = '"' then [92, n]
  else if n = 8 then [92, 98]
  else if n = 12 then [92, 102]
  else if n = 10 then [92, 110]
  else if n = 13 then [92, 114]
  else if n = 9 then [92, 116]
  else if n < 0x20 ∨ c = '<' ∨ c = '>' ∨ c = '&' then
    [92, 117, 48, 48, (hexDigit (n / 16)).toNat, (hexDigit (n % 16)).toNat]
  else if n = 0x2028 then [92, 117, 50, 48, 50, 56]
  else if n = 0x2029 then [92, 117, 50, 48, 50, 57]
  else utf8Char c

/-- A JSON string literal as `json.Marshal` writes it. -/
def jsonString (s : String) : Bytes :=
  [34] ++ s.toList.flatMap jsonEscapeChar ++ [34]

/-- A JSON number as `json.Marshal` writes the `float64` of an integer (no bytes for an
infinity, which it refuses). -/
def jsonNumber (n : Int) : Bytes :=
  (jsonRatio (decide (n < 0)) n.natAbs 1).getD []

/-- Join byte strings with commas. -/
def joinComma : List Bytes → Bytes
  | [] => []
  | [x] => x
  | x :: y :: rest => x ++ [44] ++ joinComma (y :: rest)

mutual
/-- Whether `json.Marshal` accepts a value: no number in it is infinite. -/
def Value.marshals : Value → Bool
  | .num n => (roundFloat n.natAbs 1).isSome
  | .float _ m e => (roundFloat (m * 2 ^ e.toNat) (2 ^ (-e).toNat)).isSome
  | .arr xs => Value.marshalsList xs
  | .obj kvs => Value.marshalsFields kvs
  | _ => true
/-- Whether `json.Marshal` accepts the elements of a slice. -/
def Value.marshalsList : List Value → Bool
  | [] => true
  | x :: xs => Value.marshals x && Value.marshalsList xs
/-- Whether `json.Marshal` accepts the values of a map. -/
def Value.marshalsFields : List (String × Value) → Bool
  | [] => true
  | (_, v) :: rest => Value.marshals v && Value.marshalsFields rest
end

mutual
/-- The bytes of `json.Marshal(v)` for a value held in an `interface{}` that
`json.Marshal` accepts. -/
def jsonValue : Value → Bytes
  | .null => utf8 "null"
  | .bool b => if b then utf8 "true" else utf8 "false"
  | .num n => jsonNumber n
  | .float neg m e => (jsonRatio neg (m * 2 ^ e.toNat) (2 ^ (-e).toNat)).getD []
  | .str s => jsonString s
  | .arr xs => [91] ++ joinComma (jsonList xs) ++ [93]
  | .obj kvs =>
    [123] ++ joinComma ((sortByKey (jsonFields kvs)).map
      (fun p => jsonString p.1 ++ [58] ++ p.2)) ++ [125]
/-- The encodings of the elements of a slice. -/
def jsonList : List Value → List Bytes
  | [] => []
  | x :: xs => jsonValue x :: jsonList xs
/-- The encodings of the values of a map, by key. -/
def jsonFields : List (String × Value) → List (String × Bytes)
  | [] => []
  | (k, v) :: rest => (k, jsonValue v) :: jsonFields rest
end

/-- The bytes `json.Marshal(m)` returns for `m` of type `map[string]interface{}`;
`none` is the nil map, which is written `null`. When `json.Marshal` reports an error
(an infinite number in the map) it returns no bytes. -/
def jsonData : Option Fields → Bytes
  | none => utf8 "null"
  | some kvs => if Value.marshals (.obj kvs) then jsonValue (.obj kvs) else []

/-- Whether `json.Marshal(m)` succeeds for `m` of type `map[string]interface{}`. -/
def dataMarshals : Option Fields → Bool
  | none => true
  | some kvs => Value.marshals (.obj kvs)

/-! ## Instants and their RFC 3339 text -/

/-- An instant: nanoseconds since 1970-01-01T00:00:00Z. -/
abbrev Time := Int

/-- The zero `time.Time` (January 1, year 1, 00:00:00 UTC). -/
def zeroTime : Time := -62135596800 * 1000000000

/-- Year, month and day of a day number counted from 1970-01-01 (proleptic Gregorian). -/
def civilFromDays (days : Int) : Int × Nat × Nat :=
  let z := days + 719468
  let era := z / 146097
  let doe := (z - era * 146097).toNat
  let yoe := (doe - doe / 1460 + doe / 36524 - doe / 146096) / 365
  let doy := doe - (365 * yoe + yoe / 4 - yoe / 100)
  let mp := (5 * doy + 2) / 153
  let d := doy - (153 * mp + 2) / 5 + 1
  let m := if mp < 10 then mp + 3 else mp - 9
  let y := (yoe : Int) + era * 400
  (if m ≤ 2 then y + 1 else y, m, d)

/-- Decimal digits of `n`, left-padded with zeros to width `w`. -/
def padDigits (w n : Nat) : List Char :=
  let ds := natDigits n
  List.replicate (w - ds.length) '0' ++ ds

/-- The layout `time.RFC3339Nano` of a UTC instant; `none` when the year is outside
0..9999, where `Time.MarshalJSON` reports an error. -/
def formatTime (t : Time) : Option String :=
  let secs := t / 1000000000
  let nanos := (t % 1000000000).toNat
  let (y, m, d) := civilFromDays (secs / 86400)
  let sod := (secs % 86400).toNat
  if y < 0 ∨ 9999 < y then none
  else
    let frac := stripTrailingZeros (padDigits 9 nanos)
    some (String.mk (padDigits 4 y.toNat ++ ['-'] ++ padDigits 2 m ++ ['-'] ++ padDigits 2 d
      ++ ['T'] ++ padDigits 2 (sod / 3600) ++ [':'] ++ padDigits 2 (sod / 60 % 60) ++ [':']
      ++ padDigits 2 (sod % 60) ++ (if frac.isEmpty then [] else '.' :: frac) ++ ['Z']))

/-! ## `crypto/sha256` -/

/-- Rotate a 32-bit word right. -/
def rotr (x n : Nat) : Nat :=
  (x >>> n ||| x <<< (32 - n)) % 2 ^ 32

/-- Round constants of SHA-256. -/
def sha256K : List Nat :=
  [0x428a2f98, 0x71374491, 0xb5c0fbcf, 0xe9b5dba5, 0x3956c25b, 0x59f111f1, 0x923f82a4, 0xab1c5ed5,
   0xd807aa98, 0x12835b01, 0x243185be, 0x550c7dc3, 0x72be5d74, 0x80deb1fe, 0x9bdc06a7, 0xc19bf174,
   0xe49b69c1, 0xefbe4786, 0x0fc19dc6, 0x240ca1cc, 0x2de92c6f, 0x4a7484aa, 0x5cb0a9dc, 0x76f988da,
   0x983e5152, 0xa831c66d, 0xb00327c8, 0xbf597fc7, 0xc6e00bf3, 0xd5a79147, 0x06ca6351, 0x14292967,
   0x27b70a85, 0x2e1b2138, 0x4d2c6dfc, 0x53380d13, 0x650a7354, 0x766a0abb, 0x81c2c92e, 0x92722c85,
   0xa2bfe8a1, 0xa81a664b, 0xc24b8b70, 0xc76c51a3, 0xd192e819, 0xd6990624, 0xf40e3585, 0x106aa070,
   0x19a4c116, 0x1e376c08, 0x2748774c, 0x34b0bcb5, 0x391c0cb3, 0x4ed8aa4a, 0x5b9cca4f, 0x682e6ff3,
   0x748f82ee, 0x78a5636f, 0x84c87814, 0x8cc70208, 0x90befffa, 0xa4506ceb, 0xbef9a3f7, 0xc67178f2]

/-- The eight working words of SHA-256. -/
structure HashState where
  a : Nat
  b : Nat
  c : Nat
  d : Nat
  e : Nat
  f : Nat
  g : Nat
  h : Nat

/-- Initial hash value of SHA-256. -/
def sha256Init : HashState :=
  ⟨0x6a09e667, 0xbb67ae85, 0x3c6ef372, 0xa54ff53a, 0x510e527f, 0x9b05688c, 0x1f83d9ab, 0x5be0cd19⟩

/-- Message padding: a one bit, zeros, and the bit length in 64 bits, big-endian. -/
def sha256Pad (msg : Bytes) : Bytes :=
  let bits := 8 * msg.length
  msg.map (fun b => b % 256) ++ [0x80] ++ List.replicate ((119 - msg.length % 64) % 64) 0
    ++ (List.range 8).map (fun i => bits / 256 ^ (7 - i) % 256)

/-- Big-endian 32-bit words of a byte string. -/
def wordsOf : Bytes → List Nat
  | b0 :: b1 :: b2 :: b3 :: rest => (((b0 * 256 + b1) * 256 + b2) * 256 + b3) :: wordsOf rest
  | _ => []

/-- Extend the message schedule by `n` words. -/
def expandSchedule : Nat → List Nat → List Nat
  | 0, w => w
  | n + 1, w =>
    let i := w.length
    let w15 := w.getD (i - 15) 0
    let w2 := w.getD (i - 2) 0
    let s0 := rotr w15 7 ^^^ rotr w15 18 ^^^ (w15 >>> 3)
    let s1 := rotr w2 17 ^^^ rotr w2 19 ^^^ (w2 >>> 10)
    expandSchedule n (w ++ [(w.getD (i - 16) 0 + s0 + w.getD (i - 7) 0 + s1) % 2 ^ 32])

/-- One round of the compression function. -/
def sha256Round (s : HashState) (kw : Nat × Nat) : HashState :=
  let s1 := rotr s.e 6 ^^^ rotr s.e 11 ^^^ rotr s.e 25
  let ch := (s.e &&& s.f) ^^^ ((2 ^ 32 - 1 - s.e) &&& s.g)
  let t1 := (s.h + s1 + ch + kw.1 + kw.2) % 2 ^ 32
  let s0 := rotr s.a 2 ^^^ rotr s.a 13 ^^^ rotr s.a 22
  let maj := (s.a &&& s.b) ^^^ (s.a &&& s.c) ^^^ (s.b &&& s.c)
  let t2 := (s0 + maj) % 2 ^ 32
  ⟨(t1 + t2) % 2 ^ 32, s.a, s.b, s.c, (s.d + t1) % 2 ^ 32, s.e, s.f, s.g⟩

/-- Process one block of sixteen words. -/
def sha256Block (s : HashState) (block : List Nat) : HashState :=
  let r := (sha256K.zip (expandSchedule 48 block)).foldl sha256Round s
  ⟨(s.a + r.a) % 2 ^ 32, (s.b + r.b) % 2 ^ 32, (s.c + r.c) % 2 ^ 32, (s.d + r.d) % 2 ^ 32,
   (s.e + r.e) % 2 ^ 32, (s.f + r.f) % 2 ^ 32, (s.g + r.g) % 2 ^ 32, (s.h + r.h) % 2 ^ 32⟩

/-- Process `n` blocks of a word list. -/
def sha256Blocks : Nat → HashState → List Nat → HashState
  | 0, s, _ => s
  | n + 1, s, ws => sha256Blocks n (sha256Block s (ws.take 16)) (ws.drop 16)

/-- The four bytes of a 32-bit word, big-endian. -/
def wordBytes (w : Nat) : Bytes :=
  [w / 16777216 % 256, w / 65536 % 256, w / 256 % 256, w % 256]

/-- The 32-byte digest `sha256.Sum256(data)`. -/
def Sum256 (data : Bytes) : Bytes :=
  let p := sha256Pad data
  let s := sha256Blocks (p.length / 64) sha256Init (wordsOf p)
  wordBytes s.a ++ wordBytes s.b ++ wordBytes s.c ++ wordBytes s.d
    ++ wordBytes s.e ++ wordBytes s.f ++ wordBytes s.g ++ wordBytes s.h

/-- The text of `fmt.Sprintf("%x", b)` for a byte slice: two lowercase digits a byte. -/
def sprintHex (b : Bytes) : String :=
  String.mk (b.flatMap (fun x => [hexDigit (x / 16 % 16), hexDigit (x % 16)]))

/-! ## Go maps -/

/-- A non-nil Go map with string keys: its bindings, no key twice. The order of the
list is not observable through the map operations below. -/
structure GoMap (V : Type) where
  entries : List (String × V)
  nodup : (entries.map Prod.fst).Nodup

/-- The value bound to `key` in a list of bindings. -/
def lookupKey {V : Type} (key : String) : List (String × V) → Option V
  | [] => none
  | (k, x) :: rest => if k = key then some x else lookupKey key rest

/-- Bind `key` to `v`: in place when the key is bound, as a new binding otherwise. -/
def replaceKey {V : Type} (key : String) (v : V) : List (String × V) → List (String × V)
  | [] => [(key, v)]
  | (k, x) :: rest => if k = key then (key, v) :: rest else (k, x) :: replaceKey key v rest

/-- Drop the bindings of `key`. -/
def removeKey {V : Type} (key : String) (l : List (String × V)) : List (String × V) :=
  l.filter (fun p => decide (p.1 ≠ key))

/-- The empty map, `make(map[string]V)`. -/
def GoMap.empty {V : Type} : GoMap V :=
  ⟨[], List.nodup_nil⟩

/-- The lookup `v, ok := m[key]`. -/
def GoMap.get {V : Type} (m : GoMap V) (key : String) : Option V :=
  lookupKey key m.entries

/-- The assignment `m[key] = v`. -/
def GoMap.set {V : Type} (m : GoMap V) (key : String) (v : V) : GoMap V :=
  ⟨replaceKey key v m.entries, by
    have hmem : ∀ (l : List (String × V)) (a : String),
        a ∈ (replaceKey key v l).map Prod.fst → a = key ∨ a ∈ l.map Prod.fst := by
      intro l
      induction l with
      | nil => intro a h; simpa [replaceKey] using h
      | cons p rest ih =>
        intro a h
        obtain ⟨k, x⟩ := p
        by_cases hk : k = key
        · simp only [replaceKey, hk, if_true, List.map_cons, List.mem_cons] at h
          rcases h with h | h
          · exact Or.inl h
          · exact Or.inr (List.mem_cons_of_mem _ h)
        · simp only [replaceKey, hk, if_false, List.map_cons, List.mem_cons] at h
          rcases h with h | h
          · exact Or.inr (by simp [h])
          · rcases ih a h with h' | h'
            · exact Or.inl h'
            · exact Or.inr (List.mem_cons_of_mem _ h')
    have hnd : ∀ l : List (String × V), (l.map Prod.fst).Nodup →
        ((replaceKey key v l).map Prod.fst).Nodup := by
      intro l
      induction l with
      | nil => intro _; simp [replaceKey]
      | cons p rest ih =>
        intro h
        obtain ⟨k, x⟩ := p
        simp only [List.map_cons, List.nodup_cons] at h
        by_cases hk : k = key
        · simp only [replaceKey, hk, if_true, List.map_cons, List.nodup_cons]
          exact ⟨hk ▸ h.1, h.2⟩
        · simp only [replaceKey, hk, if_false, List.map_cons, List.nodup_cons]
          refine ⟨fun hin => ?_, ih h.2⟩
          rcases hmem rest k hin with h' | h'
          · exact hk h'
          · exact h.1 h'
    exact hnd _ m.nodup⟩

/-- The statement `delete(m, key)`. -/
def GoMap.delete {V : Type} (m : GoMap V) (key : String) : GoMap V :=
  ⟨removeKey key m.entries,
    m.nodup.sublist ((List.filter_sublist m.entries).map Prod.fst)⟩

/-- The keys of a map. -/
def GoMap.keys {V : Type} (m : GoMap V) : List String :=
  m.entries.map Prod.fst

/-- An order in which a `range` loop may visit the map: any arrangement of its keys. -/
def GoMap.RangeOrder {V : Type} (m : GoMap V) (order : List String) : Prop :=
  order.Perm m.keys

instance GoMap.decidableRangeOrder {V : Type} (m : GoMap V) (order : List String) :
    Decidable (m.RangeOrder order) :=
  inferInstanceAs (Decidable (order.Perm m.keys))

/-- The pairs a `range` loop over the map visits when it takes the keys in `order`. -/
def GoMap.range {V : Type} (m : GoMap V) (order : List String) : List (String × V) :=
  order.filterMap (fun key => (m.get key).map (fun v => (key, v)))

/-! ## The write-ahead log (`wal.go`) -/

/-- The struct `WALEntry`; `Data = none` is the nil map. -/
structure WALEntry where
  Operation : String
  Collection : String
  DocumentID : String
  Data : Option Fields
  Timestamp : Time

/-- The Go `error` values the storage package can return. -/
inductive Error where
  | marshal
  | write
  | sync
  | read
  | wrap (msg : String) (err : Error)
deriving DecidableEq

/-- What the operating system does to `file.Write(data)` followed by `file.Sync()`. -/
inductive WriteOutcome where
  | ok
  | writeFails (written : Nat)
  | syncFails
deriving DecidableEq

/-- The length `len(m)` of a `map[string]interface{}`. -/
def dataLen : Option Fields → Nat
  | none => 0
  | some kvs => kvs.length

/-- The bytes of `json.Marshal(entry)`: the fields in declaration order under their tags,
`data` left out when the map is empty (`omitempty`); `none` when the data or the
timestamp cannot be marshalled. -/
def marshalEntry (entry : WALEntry) : Option Bytes :=
  match formatTime entry.Timestamp with
  | none => none
  | some ts =>
    if dataMarshals entry.Data = false then none
    else some ([123] ++ jsonString "operation" ++ [58] ++ jsonString entry.Operation ++ [44]
      ++ jsonString "collection" ++ [58] ++ jsonString entry.Collection ++ [44]
      ++ jsonString "documentId" ++ [58] ++ jsonString entry.DocumentID ++ [44]
      ++ (if dataLen entry.Data = 0 then []
          else jsonString "data" ++ [58] ++ jsonData entry.Data ++ [44])
      ++ jsonString "timestamp" ++ [58] ++ jsonString ts ++ [125])

/-- The struct `WAL`: the contents of `current.wal`. -/
structure WAL where
  file : Bytes

/-- The method `(*WAL).Write`: marshal, add a newline, write and sync. -/
def WAL.Write (w : WAL) (entry : WALEntry) (io : WriteOutcome) : Option Error × WAL :=
  match marshalEntry entry with
  | none => (some Error.marshal, w)
  | some data =>
    let data := data ++ [10]
    match io with
    | WriteOutcome.writeFails n => (some Error.write, { file := w.file ++ data.take n })
    | WriteOutcome.syncFails => (some Error.sync, { file := w.file ++ data })
    | WriteOutcome.ok => (none, { file := w.file ++ data })

/-- The loop of `splitLines`: `cur` is `data[start:i]`, `lines` the lines found so far. -/
def splitLoop : Bytes → Bytes → List Bytes → List Bytes
  | [], cur, lines => if 0 < cur.length then lines ++ [cur] else lines
  | b :: rest, cur, lines =>
    if b = 10 then splitLoop rest [] (lines ++ [cur]) else splitLoop rest (cur ++ [b]) lines

/-- The function `splitLines`. -/
def splitLines (data : Bytes) : List Bytes :=
  splitLoop data [] []

/-! ## `encoding/json` input -/

/-- JSON text as the scanner of `encoding/json` accepts it: a number by its literal, a
string by its decoded text and the raw bytes between its quotes, an object by its
members in the order of the text (a key may repeat). -/
inductive Json where
  | null : Json
  | bool (b : Bool) : Json
  | number (lit : Bytes) : Json
  | string (s : String) (raw : Bytes) : Json
  | array (xs : List Json) : Json
  | object (members : List (String × Json)) : Json

/-- JSON white space: space, tab, carriage return, line feed. -/
def isSpace (b : Nat) : Bool :=
  b = 32 || b = 9 || b = 13 || b = 10

/-- ASCII decimal digit. -/
def isDigit (b : Nat) : Bool :=
  48 ≤ b && b ≤ 57

/-- Skip leading white space. -/
def skipSpace : Bytes → Bytes
  | [] => []
  | b :: rest => if isSpace b then skipSpace rest else b :: rest

/-- The leading digits of the input and what follows them. -/
def spanDigits : Bytes → Bytes × Bytes
  | [] => ([], [])
  | b :: rest =>
    if isDigit b then ((spanDigits rest).1.cons b, (spanDigits rest).2) else ([], b :: rest)

/-- Value of a hexadecimal digit. -/
def hexVal (b : Nat) : Option Nat :=
  if 48 ≤ b ∧ b ≤ 57 then some (b - 48)
  else if 97 ≤ b ∧ b ≤ 102 then some (b - 87)
  else if 65 ≤ b ∧ b ≤ 70 then some (b - 55)
  else none

/-- Four hexadecimal digits at the head of the input. -/
def readHex4 : Bytes → Option (Nat × Bytes)
  | a :: b :: c :: d :: rest =>
    match hexVal a, hexVal b, hexVal c, hexVal d with
    | some a, some b, some c, some d => some (((a * 16 + b) * 16 + c) * 16 + d, rest)
    | _, _, _, _ => none
  | _ => none

/-- The function `utf8.DecodeRune`: the code point at the head of the input and its
width, U+FFFD of width 1 for an invalid encoding. -/
def decodeRune : Bytes → Char × Nat
  | [] => (Char.ofNat 0xFFFD, 0)
  | b0 :: rest =>
    if b0 < 0x80 then (Char.ofNat b0, 1)
    else if 0xC2 ≤ b0 ∧ b0 < 0xE0 then
      match rest with
      | b1 :: _ =>
        if 0x80 ≤ b1 ∧ b1 < 0xC0 then (Char.ofNat ((b0 - 0xC0) * 64 + (b1 - 0x80)), 2)
        else (Char.ofNat 0xFFFD, 1)
      | _ => (Char.ofNat 0xFFFD, 1)
    else if 0xE0 ≤ b0 ∧ b0 < 0xF0 then
      match rest with
      | b1 :: b2 :: _ =>
        let cp := ((b0 - 0xE0) * 64 + (b1 - 0x80)) * 64 + (b2 - 0x80)
        if 0x80 ≤ b1 ∧ b1 < 0xC0 ∧ 0x80 ≤ b2 ∧ b2 < 0xC0 ∧ 0x800 ≤ cp
            ∧ ¬ (0xD800 ≤ cp ∧ cp < 0xE000) then (Char.ofNat cp, 3)
        else (Char.ofNat 0xFFFD, 1)
      | _ => (Char.ofNat 0xFFFD, 1)
    else if 0xF0 ≤ b0 ∧ b0 < 0xF5 then
      match rest with
      | b1 :: b2 :: b3 :: _ =>
        let cp := (((b0 - 0xF0) * 64 + (b1 - 0x80)) * 64 + (b2 - 0x80)) * 64 + (b3 - 0x80)
        if 0x80 ≤ b1 ∧ b1 < 0xC0 ∧ 0x80 ≤ b2 ∧ b2 < 0xC0 ∧ 0x80 ≤ b3 ∧ b3 < 0xC0
            ∧ 0x10000 ≤ cp ∧ cp ≤ 0x10FFFF then (Char.ofNat cp, 4)
        else (Char.ofNat 0xFFFD, 1)
      | _ => (Char.ofNat 0xFFFD, 1)
    else (Char.ofNat 0xFFFD, 1)

/-- The character a one-letter escape stands for. -/
def unescapeByte (c : Nat) : Option Char :=
  if c = 34 then some '"'
  else if c = 92 then some '\\'
  else if c = 47 then some '/'
  else if c = 98 then some (Char.ofNat 8)
  else if c = 102 then some (Char.ofNat 12)
  else if c = 110 then some '\n'
  else if c = 114 then some '\r'
  else if c = 116 then some '\t'
  else none

/-- The code point of a `\u` escape whose four digits gave `u`, the input after it being
`rest`: a surrogate pair is combined, a lone surrogate becomes U+FFFD. The second
component is what remains of the input. -/
def unescapeU (u : Nat) (rest : Bytes) : Char × Bytes :=
  if 0xD800 ≤ u ∧ u < 0xE000 then
    match rest with
    | 92 :: 117 :: rest' =>
      match readHex4 rest' with
      | some (u', rest'') =>
        if u < 0xDC00 ∧ 0xDC00 ≤ u' ∧ u' < 0xE000 then
          (Char.ofNat ((u - 0xD800) * 1024 + (u' - 0xDC00) + 0x10000), rest'')
        else (Char.ofNat 0xFFFD, rest)
      | none => (Char.ofNat 0xFFFD, rest)
    | _ => (Char.ofNat 0xFFFD, rest)
  else (Char.ofNat u, rest)

/-- A string literal after its opening quote: the decoded text, the raw bytes before the
closing quote, and the input after the closing quote. -/
def parseStringBody : Nat → Bytes → List Char → Option (String × Bytes)
  | 0, _, _ => none
  | fuel + 1, bs, acc =>
    match bs with
    | [] => none
    | b :: rest =>
      if b = 34 then some (String.mk acc, rest)
      else if b = 92 then
        match rest with
        | [] => none
        | c :: rest' =>
          if c = 117 then
            match readHex4 rest' with
            | none => none
            | some (u, rest'') =>
              parseStringBody fuel (unescapeU u rest'').2 (acc ++ [(unescapeU u rest'').1])
          else
            match unescapeByte c with
            | none => none
            | some ch => parseStringBody fuel rest' (acc ++ [ch])
      else if b < 0x20 then none
      else
        parseStringBody fuel (bs.drop (decodeRune bs).2) (acc ++ [(decodeRune bs).1])

/-- A string literal after its opening quote, as `Json.string`. -/
def parseStringLit (bs : Bytes) : Option (Json × Bytes) :=
  match parseStringBody (bs.length + 1) bs [] with
  | none => none
  | some (s, rest) => some (Json.string s (bs.take (bs.length - rest.length - 1)), rest)

/-- A number literal at the head of the input, by the JSON grammar. -/
def scanNumber (bs : Bytes) : Option (Bytes × Bytes) :=
  let (sign, s1) := match bs with
    | 45 :: r => ([45], r)
    | _ => ([], bs)
  let (ip, s2) := spanDigits s1
  if ip = [] ∨ (ip.head? = some 48 ∧ ip.length ≠ 1) then none
  else
    let frac : Option (Bytes × Bytes) :=
      match s2 with
      | 46 :: r => if (spanDigits r).1 = [] then none
                   else some (46 :: (spanDigits r).1, (spanDigits r).2)
      | _ => some ([], s2)
    match frac with
    | none => none
    | some (fp, s3) =>
      let ex : Option (Bytes × Bytes) :=
        match s3 with
        | e :: r =>
          if e = 101 ∨ e = 69 then
            match r with
            | sg :: r' =>
              if sg = 43 ∨ sg = 45 then
                (if (spanDigits r').1 = [] then none
                 else some (e :: sg :: (spanDigits r').1, (spanDigits r').2))
              else if (spanDigits r).1 = [] then none
              else some (e :: (spanDigits r).1, (spanDigits r).2)
            | [] => none
          else some ([], s3)
        | [] => some ([], s3)
      match ex with
      | none => none
      | some (ep, s4) => some (sign ++ ip ++ fp ++ ep, s4)

/-- The input after the given bytes, when it starts with them. -/
def expectBytes : Bytes → Bytes → Option Bytes
  | [], bs => some bs
  | _ :: _, [] => none
  | p :: ps, b :: bs => if p = b then expectBytes ps bs else none

mutual
/-- A JSON value at the head of the input (after white space) and the input after it. -/
def parseJson : Nat → Bytes → Option (Json × Bytes)
  | 0, _ => none
  | fuel + 1, bs =>
    match skipSpace bs with
    | [] => none
    | b :: rest =>
      if b = 123 then
        match skipSpace rest with
        | 125 :: rest' => some (Json.object [], rest')
        | _ => parseMembers fuel rest []
      else if b = 91 then
        match skipSpace rest with
        | 93 :: rest' => some (Json.array [], rest')
        | _ => parseElements fuel rest []
      else if b = 34 then parseStringLit rest
      else if b = 116 then (expectBytes [114, 117, 101] rest).map (fun r => (Json.bool true, r))
      else if b = 102 then
        (expectBytes [97, 108, 115, 101] rest).map (fun r => (Json.bool false, r))
      else if b = 110 then (expectBytes [117, 108, 108] rest).map (fun r => (Json.null, r))
      else (scanNumber (b :: rest)).map (fun p => (Json.number p.1, p.2))
/-- The members of an object from a key on, up to the closing brace. -/
def parseMembers : Nat → Bytes → List (String × Json) → Option (Json × Bytes)
  | 0, _, _ => none
  | fuel + 1, bs, acc =>
    match skipSpace bs with
    | 34 :: rest =>
      match parseStringBody (rest.length + 1) rest [] with
      | none => none
      | some (key, rest1) =>
        match skipSpace rest1 with
        | 58 :: rest2 =>
          match parseJson fuel rest2 with
          | none => none
          | some (v, rest3) =>
            match skipSpace rest3 with
            | 44 :: rest4 => parseMembers fuel rest4 (acc ++ [(key, v)])
            | 125 :: rest4 => some (Json.object (acc ++ [(key, v)]), rest4)
            | _ => none
        | _ => none
    | _ => none
/-- The elements of an array from an element on, up to the closing bracket. -/
def parseElements : Nat → Bytes → List Json → Option (Json × Bytes)
  | 0, _, _ => none
  | fuel + 1, bs, acc =>
    match parseJson fuel bs with
    | none => none
    | some (v, rest) =>
      match skipSpace rest with
      | 44 :: rest' => parseElements fuel rest' (acc ++ [v])
      | 93 :: rest' => some (Json.array (acc ++ [v]), rest')
      | _ => none
end

/-- A whole input as one JSON value between white space; `none` is a syntax error. -/
def parseDocument (bs : Bytes) : Option Json :=
  match parseJson (bs.length + 1) bs with
  | none => none
  | some (j, rest) => if (skipSpace rest).length = 0 then some j else none

/-- The number a list of decimal digits denotes. -/
def digitsValue (ds : Bytes) : Nat :=
  ds.foldl (fun n d => n * 10 + (d - 48)) 0

/-- The `float64` a number literal decodes to (`strconv.ParseFloat`): the value nearest
to the decimal, as `num` when it is an integer of magnitude at most 2^53 and as `float`
otherwise; `none` when the decimal is beyond the range of `float64`, which is a
decoding error. -/
def parseNumber (lit : Bytes) : Option Value :=
  let neg := lit.head? = some 45
  let s1 := if neg then lit.drop 1 else lit
  let (ip, s2) := spanDigits s1
  let (fp, s3) := match s2 with
    | 46 :: r => spanDigits r
    | _ => ([], s2)
  let ex : Int := match s3 with
    | _ :: 45 :: r => - (digitsValue r : Int)
    | _ :: 43 :: r => (digitsValue r : Int)
    | _ :: r => (digitsValue r : Int)
    | [] => 0
  let mant := digitsValue (ip ++ fp)
  let scale := ex - (fp.length : Int)
  let zero : Value := if neg then Value.float true 0 0 else Value.num 0
  if mant = 0 then some zero
  else if 310 < scale then none
  else if scale + ((ip ++ fp).length : Int) < -330 then some zero
  else
    match roundFloat (mant * 10 ^ scale.toNat) (10 ^ (-scale).toNat) with
    | none => none
    | some (m, e) =>
      if m = 0 then some zero
      else if 0 ≤ e then
        (if m * 2 ^ e.toNat ≤ 2 ^ 53 then
          some (Value.num (if neg then - ((m * 2 ^ e.toNat : Nat) : Int) else (m * 2 ^ e.toNat : Nat)))
         else some (Value.float neg m e))
      else if m % 2 ^ (-e).toNat = 0 then
        some (Value.num (if neg then - ((m / 2 ^ (-e).toNat : Nat) : Int) else (m / 2 ^ (-e).toNat : Nat)))
      else some (Value.float neg m e)

mutual
/-- What a JSON value decodes to in an `interface{}`; `none` is a decoding error. -/
def Json.toValue : Json → Option Value
  | Json.null => some Value.null
  | Json.bool b => some (Value.bool b)
  | Json.number lit => parseNumber lit
  | Json.string s _ => some (Value.str s)
  | Json.array xs => (Json.toValues xs).map Value.arr
  | Json.object ms => (Json.toFields ms).map Value.obj
/-- The elements of an array, decoded. -/
def Json.toValues : List Json → Option (List Value)
  | [] => some []
  | j :: rest =>
    match Json.toValue j, Json.toValues rest with
    | some v, some vs => some (v :: vs)
    | _, _ => none
/-- The members of an object, decoded into a map: of the members with one key the last
one counts. -/
def Json.toFields : List (String × Json) → Option Fields
  | [] => some []
  | (k, j) :: rest =>
    match Json.toValue j, Json.toFields rest with
    | some v, some fs => some (if (Fields.get fs k).isSome then fs else (k, v) :: fs)
    | _, _ => none
end

/-- The folding of a field name under which `encoding/json` matches keys to struct
fields: ASCII letters to upper case, and the two other letters that fold to ASCII. -/
def foldName (s : String) : List Nat :=
  s.toList.map (fun c =>
    let n := c.toNat
    if 97 ≤ n ∧ n ≤ 122 then n - 32
    else if n = 0x17F then 83
    else if n = 0x212A then 75
    else n)

/-- A JSON value stored in a `string` field that holds `cur`. -/
def decodeString (cur : String) : Json → Option String
  | Json.string s _ => some s
  | Json.null => some cur
  | _ => none

/-- A JSON value stored in a `map[string]interface{}` field that holds `cur`: an object
is added to the map the field holds, `null` makes the field nil. -/
def decodeData (cur : Option Fields) : Json → Option (Option Fields)
  | Json.object ms =>
    (Json.toFields ms).map
      (fun fs => some (fs.foldl (fun m p => replaceKey p.1 p.2 m) (cur.getD [])))
  | Json.null => some none
  | _ => none

/-- Whether a year is a leap year. -/
def isLeap (y : Nat) : Bool :=
  y % 4 = 0 && (y % 100 ≠ 0 || y % 400 = 0)

/-- Days of a month. -/
def daysIn (m y : Nat) : Nat :=
  if m = 2 then (if isLeap y then 29 else 28)
  else if m = 4 ∨ m = 6 ∨ m = 9 ∨ m = 11 then 30
  else 31

/-- Day number, counted from 1970-01-01, of a date (proleptic Gregorian). -/
def daysFromCivil (y m d : Nat) : Int :=
  let y' : Int := if m ≤ 2 then (y : Int) - 1 else (y : Int)
  let era := y' / 400
  let yoe := (y' - era * 400).toNat
  let doy := (153 * (if 2 < m then m - 3 else m + 9) + 2) / 5 + d - 1
  let doe := yoe * 365 + yoe / 4 - yoe / 100 + doy
  era * 146097 + (doe : Int) - 719468

/-- Two or four decimal digits as a number within bounds. -/
def parseUint (ds : Bytes) (lo hi : Nat) : Option Nat :=
  if ds.all isDigit ∧ lo ≤ digitsValue ds ∧ digitsValue ds ≤ hi then some (digitsValue ds)
  else none

/-- Nanoseconds of a fraction given by its digits: the first nine count. -/
def parseNanoseconds (ds : Bytes) : Nat :=
  digitsValue (ds.take 9) * 10 ^ (9 - (ds.take 9).length)

/-- The function `parseRFC3339` of package `time`: the instant of a text in the fixed
form `2006-01-02T15:04:05`, an optional fraction, and `Z` or an offset `+07:00`. -/
def parseRFC3339 (s : Bytes) : Option Time :=
  if s.length < 19 then none
  else
    match parseUint (s.take 4) 0 9999, parseUint ((s.drop 5).take 2) 1 12,
      parseUint ((s.drop 11).take 2) 0 23, parseUint ((s.drop 14).take 2) 0 59,
      parseUint ((s.drop 17).take 2) 0 59 with
    | some year, some month, some hour, some min, some sec =>
      match parseUint ((s.drop 8).take 2) 1 (daysIn month year) with
      | none => none
      | some day =>
        if s.getD 4 0 = 45 ∧ s.getD 7 0 = 45 ∧ s.getD 10 0 = 84 ∧ s.getD 13 0 = 58
            ∧ s.getD 16 0 = 58 then
          let tail := s.drop 19
          let (nsec, zone) : Nat × Bytes :=
            match tail with
            | 46 :: d :: r =>
              if isDigit d then (parseNanoseconds (spanDigits (d :: r)).1, (spanDigits (d :: r)).2)
              else (0, tail)
            | _ => (0, tail)
          let wall : Int :=
            (daysFromCivil year month day * 86400 + (hour * 3600 + min * 60 + sec : Nat))
              * 1000000000 + (nsec : Nat)
          if zone.length = 1 ∧ zone.head? = some 90 then some wall
          else if zone.length = 6 then
            match parseUint ((zone.drop 1).take 2) 0 23, parseUint ((zone.drop 4).take 2) 0 59 with
            | some hr, some mm =>
              if (zone.head? = some 45 ∨ zone.head? = some 43) ∧ zone.getD 3 0 = 58 then
                let offset : Int := (((hr * 60 + mm) * 60 : Nat) : Int) * 1000000000
                some (if zone.head? = some 45 then wall + offset else wall - offset)
              else none
            | _, _ => none
          else none
        else none
    | _, _, _, _, _ => none

/-- The function `getnum` of package `time`: one or two leading digits as a number, two
being required when `fixed`. -/
def getnum (s : Bytes) (fixed : Bool) : Option (Nat × Bytes) :=
  match s with
  | [] => none
  | a :: rest =>
    if isDigit a then
      match rest with
      | [] => if fixed then none else some (a - 48, [])
      | b :: rest' =>
        if isDigit b then some ((a - 48) * 10 + (b - 48), rest')
        else if fixed then none
        else some (a - 48, rest)
    else none

/-- The input after a given byte, when it starts with that byte. -/
def skipByte (c : Nat) : Bytes → Option Bytes
  | [] => none
  | b :: rest => if b = c then some rest else none

/-- A fraction of a second after the seconds as `time.Parse` takes it although the
layout has none: a period or a comma and at least one digit. The nanoseconds and the
input after the fraction. -/
def parseFraction (s : Bytes) : Nat × Bytes :=
  match s with
  | c :: d :: r =>
    if (c = 46 ∨ c = 44) ∧ isDigit d then
      (parseNanoseconds (spanDigits (d :: r)).1, (spanDigits (d :: r)).2)
    else (0, s)
  | _ => (0, s)

/-- The zone of layout element `Z07:00` at the end of the input, as its offset in
seconds east of UTC: `Z`, or a sign, two digits, a colon and two digits, hours up to
24 and minutes up to 60 being let through. -/
def parseZone (s : Bytes) : Option Int :=
  match s with
  | [90] => some 0
  | [sign, h1, h2, colon, m1, m2] =>
    if colon = 58 ∧ isDigit h1 ∧ isDigit h2 ∧ isDigit m1 ∧ isDigit m2
        ∧ (h1 - 48) * 10 + (h2 - 48) ≤ 24 ∧ (m1 - 48) * 10 + (m2 - 48) ≤ 60 then
      if sign = 43 then some ((((h1 - 48) * 10 + (h2 - 48)) * 60 + (m1 - 48) * 10 + (m2 - 48)) * 60 : Nat)
      else if sign = 45 then
        some (- ((((h1 - 48) * 10 + (h2 - 48)) * 60 + (m1 - 48) * 10 + (m2 - 48)) * 60 : Nat))
      else none
    else none
  | _ => none

/-- The call `time.Parse(time.RFC3339, s)`, layout `2006-01-02T15:04:05Z07:00`: four
digits of year, two of month, two of day, one or two of hour, two of minute, two of
second, an optional fraction, the zone, and nothing after it. -/
def parseLayoutRFC3339 (s : Bytes) : Option Time :=
  if s.length < 4 ∨ ¬ (s.take 4).all isDigit then none
  else
    (skipByte 45 (s.drop 4)).bind fun s1 =>
    (getnum s1 true).bind fun (month, s2) =>
    if month = 0 ∨ 12 < month then none
    else
      (skipByte 45 s2).bind fun s3 =>
      (getnum s3 true).bind fun (day, s4) =>
      (skipByte 84 s4).bind fun s5 =>
      (getnum s5 false).bind fun (hour, s6) =>
      if 24 ≤ hour then none
      else
        (skipByte 58 s6).bind fun s7 =>
        (getnum s7 true).bind fun (min, s8) =>
        if 60 ≤ min then none
        else
          (skipByte 58 s8).bind fun s9 =>
          (getnum s9 true).bind fun (sec, s10) =>
          if 60 ≤ sec then none
          else
            (parseZone (parseFraction s10).2).bind fun offset =>
            if day < 1 ∨ daysIn month (digitsValue (s.take 4)) < day then none
            else
              some ((daysFromCivil (digitsValue (s.take 4)) month day * 86400
                  + (hour * 3600 + min * 60 + sec : Nat) - offset) * 1000000000
                + ((parseFraction s10).1 : Nat))

/-- The function `parseStrictRFC3339` that `Time.UnmarshalJSON` calls on the raw bytes
between the quotes of a JSON string: `parseRFC3339`, and `time.Parse` with the layout
RFC 3339 for what that rejects. -/
def parseStrictRFC3339 (s : Bytes) : Option Time :=
  match parseRFC3339 s with
  | some t => some t
  | none => parseLayoutRFC3339 s

/-- A JSON value stored in a `time.Time` field that holds `cur`. -/
def decodeTime (cur : Time) : Json → Option Time
  | Json.string _ raw => parseStrictRFC3339 raw
  | Json.null => some cur
  | _ => none

/-- The members of an object stored one after the other into a `WALEntry`: a key
selects the field whose tag it equals under folding, other keys are skipped. -/
def decodeMembers : List (String × Json) → WALEntry → Option WALEntry
  | [], entry => some entry
  | (k, j) :: rest, entry =>
    if foldName k = foldName "operation" then
      match decodeString entry.Operation j with
      | none => none
      | some s => decodeMembers rest { entry with Operation := s }
    else if foldName k = foldName "collection" then
      match decodeString entry.Collection j with
      | none => none
      | some s => decodeMembers rest { entry with Collection := s }
    else if foldName k = foldName "documentId" then
      match decodeString entry.DocumentID j with
      | none => none
      | some s => decodeMembers rest { entry with DocumentID := s }
    else if foldName k = foldName "data" then
      match decodeData entry.Data j with
      | none => none
      | some d => decodeMembers rest { entry with Data := d }
    else if foldName k = foldName "timestamp" then
      match decodeTime entry.Timestamp j with
      | none => none
      | some t => decodeMembers rest { entry with Timestamp := t }
    else decodeMembers rest entry

/-- The call `json.Unmarshal(line, &entry)` on a zero `WALEntry`: the entry when the call
returns no error. -/
def unmarshalEntry (line : Bytes) : Option WALEntry :=
  match parseDocument line with
  | some Json.null => some ⟨"", "", "", none, zeroTime⟩
  | some (Json.object ms) => decodeMembers ms ⟨"", "", "", none, zeroTime⟩
  | _ => none

/-- The loop of `ReadAll` over the lines of the file. -/
def readLoop : List Bytes → List WALEntry → List WALEntry
  | [], entries => entries
  | line :: rest, entries =>
    if line.length = 0 then readLoop rest entries
    else
      match unmarshalEntry line with
      | none => readLoop rest entries
      | some entry => readLoop rest (entries ++ [entry])

/-- The method `(*WAL).ReadAll`, the file being read without error. -/
def WAL.ReadAll (w : WAL) : List WALEntry :=
  readLoop (splitLines w.file) []

/-! ## The engine (`engine.go`) -/

/-- The struct `Document`; `Data = none` is the nil map. -/
structure Document where
  ID : String
  Data : Option Fields
  CreatedAt : Time
  UpdatedAt : Time
  Checksum : String

/-- The struct `Collection`. -/
structure Collection where
  Name : String
  Documents : GoMap Document

/-- The struct `Engine`: the collections in memory and the WAL. -/
structure Engine where
  collections : GoMap Collection
  wal : WAL

/-- The function `computeChecksum`. -/
def computeChecksum (doc : Document) : String :=
  let data := jsonData doc.Data
  let h := Sum256 data
  sprintHex (h.take 8)

/-- The method `GetCollection`: the collection under `name`, created empty when the
engine has none. -/
def Engine.GetCollection (e : Engine) (name : String) : Collection × Engine :=
  match e.collections.get name with
  | some col => (col, e)
  | none =>
    let col : Collection := { Name := name, Documents := GoMap.empty }
    (col, { e with collections := e.collections.set name col })

/-- The method `ListCollections`, the map being visited in the order `order`. -/
def Engine.ListCollections (e : Engine) (order : List String) : List String :=
  (e.collections.range order).foldl (fun names p => names ++ [p.1]) []

/-- The engine after the documents of the collection held under `name` became `docs`
(a write through the `*Collection` that `GetCollection` returned). -/
def Engine.storeDocuments (e : Engine) (name : String) (col : Collection)
    (docs : GoMap Document) : Engine :=
  { e with collections := e.collections.set name { col with Documents := docs } }

/-- The method `InsertDocument`, at instant `now`, the file system answering `io`. -/
def Engine.InsertDocument (e : Engine) (collection id : String) (data : Option Fields)
    (now : Time) (io : WriteOutcome) : Except Error Document × Engine :=
  let (col, e) := e.GetCollection collection
  let doc : Document :=
    { ID := id, Data := data, CreatedAt := now, UpdatedAt := now, Checksum := "" }
  let doc := { doc with Checksum := computeChecksum doc }
  let entry : WALEntry :=
    { Operation := "INSERT", Collection := collection, DocumentID := id, Data := data,
      Timestamp := now }
  match e.wal.Write entry io with
  | (some err, wal) => (Except.error (Error.wrap "writing WAL" err), { e with wal := wal })
  | (none, wal) =>
    let e := { e with wal := wal }
    (Except.ok doc, e.storeDocuments collection col (col.Documents.set id doc))

/-- The method `GetDocument`. -/
def Engine.GetDocument (e : Engine) (collection id : String) : Option Document × Engine :=
  let (col, e) := e.GetCollection collection
  (col.Documents.get id, e)

/-- The method `DeleteDocument`, at instant `now`, the file system answering `io`. -/
def Engine.DeleteDocument (e : Engine) (collection id : String) (now : Time) (io : WriteOutcome) :
    Bool × Engine :=
  let (col, e) := e.GetCollection collection
  let found := (col.Documents.get id).isSome
  let e := if found then e.storeDocuments collection col (col.Documents.delete id) else e
  if found then
    let entry : WALEntry :=
      { Operation := "DELETE", Collection := collection, DocumentID := id, Data := none,
        Timestamp := now }
    let (_, wal) := e.wal.Write entry io
    (found, { e with wal := wal })
  else (found, e)

/-- The loop of `matchesFilter` over the pairs of a non-empty filter. -/
def matchesLoop (data : Option Fields) : Fields → Bool
  | [] => true
  | (key, val) :: rest =>
    match data.bind (fun d => Fields.get d key) with
    | none => false
    | some docVal => if sprintV docVal ≠ sprintV val then false else matchesLoop data rest

/-- The function `matchesFilter`; `none` is the nil map. -/
def matchesFilter (data : Option Fields) (filter : Option Fields) : Bool :=
  if dataLen filter = 0 then true
  else matchesLoop data (filter.getD [])

/-- The loop of `QueryDocuments` over the documents still to visit. -/
def queryLoop (filter : Option Fields) (limit : Int) :
    List (String × Document) → List Document → List Document
  | [], results => results
  | (_, doc) :: rest, results =>
    if matchesFilter doc.Data filter then
      let results := results ++ [doc]
      if limit > 0 ∧ (results.length : Int) ≥ limit then results
      else queryLoop filter limit rest results
    else queryLoop filter limit rest results

/-- The method `QueryDocuments`, the documents being visited in the order `order`. -/
def Engine.QueryDocuments (e : Engine) (collection : String) (filter : Option Fields)
    (limit : Int) (order : List String) : List Document × Engine :=
  let (col, e) := e.GetCollection collection
  (queryLoop filter limit (col.Documents.range order) [], e)

/-- The body of the replay loop of `recover` for one entry. -/
def Engine.applyEntry (e : Engine) (entry : WALEntry) : Engine :=
  let (col, e) := e.GetCollection entry.Collection
  if entry.Operation = "INSERT" then
    let doc : Document :=
      { ID := entry.DocumentID, Data := entry.Data, CreatedAt := entry.Timestamp,
        UpdatedAt := entry.Timestamp, Checksum := "" }
    let doc := { doc with Checksum := computeChecksum doc }
    e.storeDocuments entry.Collection col (col.Documents.set entry.DocumentID doc)
  else if entry.Operation = "DELETE" then
    e.storeDocuments entry.Collection col (col.Documents.delete entry.DocumentID)
  else e

/-- The document under `id` in collection `c`, read off the state without creating the
collection. -/
def Engine.lookup (e : Engine) (c id : String) : Option Document :=
  (e.collections.get c).bind (fun col => col.Documents.get id)

/-- The last entry of a log that names collection `c` and document `id`. -/
def lastEntryFor (c id : String) (es : List WALEntry) : Option WALEntry :=
  (es.filter (fun e => decide (e.Collection = c ∧ e.DocumentID = id))).getLast?

/-- The document an INSERT entry stands for after replay. -/
def replayedDocument (entry : WALEntry) : Document :=
  { ID := entry.DocumentID, Data := entry.Data, CreatedAt := entry.Timestamp,
    UpdatedAt := entry.Timestamp,
    Checksum := sprintHex ((Sum256 (jsonData entry.Data)).take 8) }

/-- The last entry of a log that names collection `c` and document `id` and is an
INSERT or a DELETE. -/
def lastWriteFor (c id : String) (es : List WALEntry) : Option WALEntry :=
  (es.filter (fun e => decide (e.Collection = c ∧ e.DocumentID = id
    ∧ (e.Operation = "INSERT" ∨ e.Operation = "DELETE")))).getLast?

/-- The replay loop of `recover` over the entries read from the WAL. -/
def Engine.replay (e : Engine) (entries : List WALEntry) : Engine :=
  entries.foldl Engine.applyEntry e

/-- The contents `saveToDisk` serializes: the documents of every collection by name. -/
def Engine.saveToDisk (e : Engine) : List (String × GoMap Document) :=
  e.collections.entries.map (fun p => (p.1, p.2.Documents))

/-- The method `loadFromDisk`; `snapshot` is the `diskData.Collections` read from the
data file, `none` when the file is missing or malformed (the engine is left as it is). -/
def Engine.loadFromDisk (e : Engine) (snapshot : Option (List (String × GoMap Document))) :
    Engine :=
  match snapshot with
  | none => e
  | some dd =>
    dd.foldl (fun e p =>
      { e with collections := e.collections.set p.1 { Name := p.1, Documents := p.2 } }) e

/-- The method `recover`: replay of the entries the WAL file holds. -/
def Engine.recover (e : Engine) : Engine :=
  let entries := e.wal.ReadAll
  if entries.length = 0 then e
  else e.replay entries

/-- The function `NewEngine` on a data file read as `snapshot` and a WAL file holding
`walFile`: empty collections, the snapshot loaded, the WAL replayed. -/
def NewEngine (snapshot : Option (List (String × GoMap Document))) (walFile : Bytes) : Engine :=
  let e : Engine := { collections := GoMap.empty, wal := { file := walFile } }
  let e := e.loadFromDisk snapshot
  e.recover

/-- The engine after inserting `{"k":"a"}`, `{"k":"b"}`, `{"k":"a"}` under the IDs 1, 2, 3
of collection `c` into an engine without collections. -/
def queryExample : Engine :=
  ((((Engine.mk GoMap.empty ⟨[]⟩).InsertDocument "c" "1" (some [("k", Value.str "a")]) 1
    WriteOutcome.ok).2.InsertDocument "c" "2" (some [("k", Value.str "b")]) 2
    WriteOutcome.ok).2.InsertDocument "c" "3" (some [("k", Value.str "a")]) 3 WriteOutcome.ok).2

/-! ## Go maps: lookup after assignment and deletion -/

theorem lookupKey_replaceKey_self {V : Type} (key : String) (v : V) (l : List (String × V)) :
    lookupKey key (replaceKey key v l) = some v := by
  induction l with
  | nil => simp [replaceKey, lookupKey]
  | cons p rest ih =>
    obtain ⟨k, x⟩ := p
    by_cases hk : k = key
    · simp [replaceKey, lookupKey, hk]
    · simp [replaceKey, lookupKey, hk, ih]

theorem lookupKey_replaceKey_ne {V : Type} (key key' : String) (v : V) (l : List (String × V))
    (h : key ≠ key') : lookupKey key' (replaceKey key v l) = lookupKey key' l := by
  induction l with
  | nil => simp [replaceKey, lookupKey, h]
  | cons p rest ih =>
    obtain ⟨k, x⟩ := p
    by_cases hk : k = key
    · subst hk
      simp [replaceKey, lookupKey, h]
    · by_cases hk' : k = key'
      · subst hk'
        simp [replaceKey, lookupKey, hk]
      · simp [replaceKey, lookupKey, hk, hk', ih]

theorem lookupKey_removeKey_self {V : Type} (key : String) (l : List (String × V)) :
    lookupKey key (removeKey key l) = none := by
  induction l with
  | nil => simp [removeKey, lookupKey]
  | cons p rest ih =>
    obtain ⟨k, x⟩ := p
    by_cases hk : k = key
    · simpa [removeKey, List.filter_cons, hk] using ih
    · simpa [removeKey, List.filter_cons, hk, lookupKey] using ih

theorem lookupKey_removeKey_ne {V : Type} (key key' : String) (l : List (String × V))
    (h : key ≠ key') : lookupKey key' (removeKey key l) = lookupKey key' l := by
  induction l with
  | nil => simp [removeKey, lookupKey]
  | cons p rest ih =>
    obtain ⟨k, x⟩ := p
    by_cases hk : k = key
    · subst hk
      simpa [removeKey, List.filter_cons, lookupKey, h] using ih
    · by_cases hk' : k = key'
      · subst hk'
        simp [removeKey, List.filter_cons, lookupKey, hk]
      · simpa [removeKey, List.filter_cons, lookupKey, hk, hk'] using ih

@[simp] theorem GoMap.get_empty {V : Type} (key : String) :
    (GoMap.empty : GoMap V).get key = none := rfl

@[simp] theorem GoMap.get_set_self {V : Type} (m : GoMap V) (key : String) (v : V) :
    (m.set key v).get key = some v :=
  lookupKey_replaceKey_self key v m.entries

theorem GoMap.get_set_ne {V : Type} (m : GoMap V) (key key' : String) (v : V)
    (h : key ≠ key') : (m.set key v).get key' = m.get key' :=
  lookupKey_replaceKey_ne key key' v m.entries h

theorem GoMap.get_set {V : Type} (m : GoMap V) (key key' : String) (v : V) :
    (m.set key v).get key' = if key = key' then some v else m.get key' := by
  by_cases h : key = key'
  · subst h; simp
  · simp [h, GoMap.get_set_ne m key key' v h]

@[simp] theorem GoMap.get_delete_self {V : Type} (m : GoMap V) (key : String) :
    (m.delete key).get key = none :=
  lookupKey_removeKey_self key m.entries

theorem GoMap.get_delete_ne {V : Type} (m : GoMap V) (key key' : String) (h : key ≠ key') :
    (m.delete key).get key' = m.get key' :=
  lookupKey_removeKey_ne key key' m.entries h

theorem GoMap.get_delete {V : Type} (m : GoMap V) (key key' : String) :
    (m.delete key).get key' = if key = key' then none else m.get key' := by
  by_cases h : key = key'
  · subst h; simp
  · simp [h, GoMap.get_delete_ne m key key' h]

/-! ## The engine: reading a document off the state -/

theorem Engine.GetCollection_wal (e : Engine) (name : String) :
    (e.GetCollection name).2.wal = e.wal := by
  unfold Engine.GetCollection
  cases e.collections.get name <;> rfl

theorem Engine.GetCollection_get_self (e : Engine) (name : String) :
    (e.GetCollection name).2.collections.get name = some (e.GetCollection name).1 := by
  unfold Engine.GetCollection
  cases h : e.collections.get name with
  | none => simp
  | some col => simpa using h

theorem Engine.GetCollection_get_ne (e : Engine) (name c : String) (h : name ≠ c) :
    (e.GetCollection name).2.collections.get c = e.collections.get c := by
  unfold Engine.GetCollection
  cases e.collections.get name with
  | none => simp [GoMap.get_set_ne _ _ _ _ h]
  | some col => rfl

theorem Engine.GetCollection_documents (e : Engine) (name id : String) :
    (e.GetCollection name).1.Documents.get id = e.lookup name id := by
  unfold Engine.GetCollection Engine.lookup
  cases e.collections.get name with
  | none => simp
  | some col => simp

theorem Engine.GetCollection_lookup (e : Engine) (name c id : String) :
    (e.GetCollection name).2.lookup c id = e.lookup c id := by
  by_cases h : name = c
  · subst h
    rw [Engine.lookup, Engine.GetCollection_get_self]
    simpa using Engine.GetCollection_documents e name id
  · rw [Engine.lookup, Engine.GetCollection_get_ne e name c h, Engine.lookup]

theorem Engine.GetDocument_fst (e : Engine) (c id : String) :
    (e.GetDocument c id).1 = e.lookup c id := by
  simp [Engine.GetDocument, Engine.GetCollection_documents]

theorem Engine.lookup_storeDocuments (e : Engine) (name : String) (col : Collection)
    (docs : GoMap Document) (c id : String) :
    (e.storeDocuments name col docs).lookup c id
      = if name = c then docs.get id else e.lookup c id := by
  by_cases h : name = c
  · subst h
    simp [Engine.storeDocuments, Engine.lookup]
  · simp [Engine.storeDocuments, Engine.lookup, h, GoMap.get_set_ne _ _ _ _ h]

theorem computeChecksum_eq (doc : Document) :
    computeChecksum doc = sprintHex ((Sum256 (jsonData doc.Data)).take 8) := rfl

theorem Engine.lookup_applyEntry (e : Engine) (entry : WALEntry) (c id : String) :
    (e.applyEntry entry).lookup c id
      = if entry.Collection = c ∧ entry.DocumentID = id then
          (if entry.Operation = "INSERT" then some (replayedDocument entry)
           else if entry.Operation = "DELETE" then none else e.lookup c id)
        else e.lookup c id := by
  unfold Engine.applyEntry
  by_cases hi : entry.Operation = "INSERT"
  · simp only [if_pos hi, Engine.lookup_storeDocuments]
    by_cases hc : entry.Collection = c
    · subst hc
      by_cases hd : entry.DocumentID = id
      · simp [hd, replayedDocument, computeChecksum_eq]
      · simp [hd, GoMap.get_set_ne _ _ _ _ hd, Engine.GetCollection_documents]
    · simp [hc, Engine.GetCollection_lookup]
  · by_cases hdel : entry.Operation = "DELETE"
    · simp only [if_neg hi, if_pos hdel, Engine.lookup_storeDocuments]
      by_cases hc : entry.Collection = c
      · subst hc
        by_cases hd : entry.DocumentID = id
        · simp [hd]
        · simp [hd, GoMap.get_delete_ne _ _ _ hd, Engine.GetCollection_documents]
      · simp [hc, Engine.GetCollection_lookup]
    · simp [hi, hdel, Engine.GetCollection_lookup]

theorem lastEntryFor_append (c id : String) (es : List WALEntry) (entry : WALEntry) :
    lastEntryFor c id (es ++ [entry])
      = if entry.Collection = c ∧ entry.DocumentID = id then some entry
        else lastEntryFor c id es := by
  unfold lastEntryFor
  by_cases h : entry.Collection = c ∧ entry.DocumentID = id
  · simp [List.filter_append, h, List.filter_cons]
  · simp [List.filter_append, h, List.filter_cons]

theorem Engine.lookup_replay (s : Engine) (es : List WALEntry)
    (hops : ∀ entry ∈ es, entry.Operation = "INSERT" ∨ entry.Operation = "DELETE")
    (c id : String) :
    (s.replay es).lookup c id
      = match lastEntryFor c id es with
        | some entry =>
          if entry.Operation = "INSERT" then some (replayedDocument entry) else none
        | none => s.lookup c id := by
  induction es using List.reverseRecOn with
  | nil => simp [Engine.replay, lastEntryFor]
  | append_singleton es entry ih =>
    have hops' : ∀ x ∈ es, x.Operation = "INSERT" ∨ x.Operation = "DELETE" :=
      fun x hx => hops x (List.mem_append_left _ hx)
    have ih := ih hops'
    have hentry : entry.Operation = "INSERT" ∨ entry.Operation = "DELETE" :=
      hops entry (by simp)
    have hrep : s.replay (es ++ [entry]) = (s.replay es).applyEntry entry := by
      simp [Engine.replay, List.foldl_append]
    rw [hrep, Engine.lookup_applyEntry, lastEntryFor_append]
    by_cases h : entry.Collection = c ∧ entry.DocumentID = id
    · simp only [h, and_self, if_true]
      rcases hentry with hi | hd
      · simp [hi]
      · have : entry.Operation ≠ "INSERT" := by rw [hd]; decide
        simp [this, hd]
    · simp only [h, if_false]
      exact ih

/-- C1: replaying a list of INSERT and DELETE entries is last-writer-wins for each
(collection, document ID). After the replay `GetDocument c id` finds a document exactly
when the last entry naming `(c, id)` is an INSERT, and then the document has ID `id`, the
Data of that entry, its Timestamp as CreatedAt and UpdatedAt and the checksum of that
Data; when no entry names `(c, id)` the answer is the one of the state replayed into.
Replaying INSERT a {x:1}, INSERT b {x:2}, DELETE a into an engine without documents
leaves in the collection exactly the document b with Data {x:2}. -/
theorem replay_last_writer_wins (s : Engine) (es : List WALEntry)
    (hops : ∀ entry ∈ es, entry.Operation = "INSERT" ∨ entry.Operation = "DELETE") :
    (∀ c id : String,
      ((s.replay es).GetDocument c id).1
        = match lastEntryFor c id es with
          | some entry =>
            if entry.Operation = "INSERT" then
              some { ID := id, Data := entry.Data, CreatedAt := entry.Timestamp,
                     UpdatedAt := entry.Timestamp,
                     Checksum := sprintHex ((Sum256 (jsonData entry.Data)).take 8) }
            else none
          | none => (s.GetDocument c id).1)
    ∧ (∀ (c : String) (t1 t2 t3 : Time) (w : WAL),
        (((Engine.mk GoMap.empty w).replay
            [{ Operation := "INSERT", Collection := c, DocumentID := "a",
               Data := some [("x", Value.num 1)], Timestamp := t1 },
             { Operation := "INSERT", Collection := c, DocumentID := "b",
               Data := some [("x", Value.num 2)], Timestamp := t2 },
             { Operation := "DELETE", Collection := c, DocumentID := "a",
               Data := none, Timestamp := t3 }]).collections.get c).map
          (fun col => col.Documents.entries)
        = some [("b", { ID := "b", Data := some [("x", Value.num 2)], CreatedAt := t2,
                        UpdatedAt := t2,
                        Checksum := sprintHex ((Sum256 (jsonData (some [("x", Value.num 2)]))).take 8) })]) := by
  constructor
  · intro c id
    rw [Engine.GetDocument_fst, Engine.GetDocument_fst, Engine.lookup_replay s es hops]
    cases hlast : lastEntryFor c id es with
    | none => rfl
    | some entry =>
      have hmem : entry ∈ es.filter (fun e => decide (e.Collection = c ∧ e.DocumentID = id)) :=
        List.mem_of_getLast?_eq_some hlast
      have hid : entry.DocumentID = id := by
        have := (List.mem_filter.mp hmem).2
        simp only [decide_eq_true_eq] at this
        exact this.2
      simp only [replayedDocument, hid]
  · intro c t1 t2 t3 w
    simp [Engine.replay, Engine.applyEntry, Engine.GetCollection, Engine.storeDocuments,
      GoMap.get, GoMap.set, GoMap.delete, GoMap.empty, lookupKey, replaceKey, removeKey,
      computeChecksum_eq]

/-- C1 at a concrete log: two inserts and a delete of the first. -/
theorem replay_last_writer_wins_witness :
    (∀ entry ∈ ([⟨"INSERT", "c", "a", some [("x", Value.num 1)], 1⟩,
        ⟨"INSERT", "c", "b", some [("x", Value.num 2)], 2⟩,
        ⟨"DELETE", "c", "a", none, 3⟩] : List WALEntry),
        entry.Operation = "INSERT" ∨ entry.Operation = "DELETE")
    ∧ (((Engine.mk GoMap.empty ⟨[]⟩).replay
          [⟨"INSERT", "c", "a", some [("x", Value.num 1)], 1⟩,
           ⟨"INSERT", "c", "b", some [("x", Value.num 2)], 2⟩,
           ⟨"DELETE", "c", "a", none, 3⟩]).GetDocument "c" "a").1
        = match lastEntryFor "c" "a"
            [⟨"INSERT", "c", "a", some [("x", Value.num 1)], 1⟩,
             ⟨"INSERT", "c", "b", some [("x", Value.num 2)], 2⟩,
             ⟨"DELETE", "c", "a", none, 3⟩] with
          | some entry =>
            if entry.Operation = "INSERT" then
              some { ID := "a", Data := entry.Data, CreatedAt := entry.Timestamp,
                     UpdatedAt := entry.Timestamp,
                     Checksum := sprintHex ((Sum256 (jsonData entry.Data)).take 8) }
            else none
          | none => ((Engine.mk GoMap.empty ⟨[]⟩).GetDocument "c" "a").1 :=
  ⟨by simp, (replay_last_writer_wins (Engine.mk GoMap.empty ⟨[]⟩) _ (by simp)).1 "c" "a"⟩

/-! ## The engine: the names of the collections -/

theorem lookupKey_eq_none_iff {V : Type} (key : String) (l : List (String × V)) :
    lookupKey key l = none ↔ key ∉ l.map Prod.fst := by
  induction l with
  | nil => simp [lookupKey]
  | cons p rest ih =>
    obtain ⟨k, x⟩ := p
    by_cases hk : k = key
    · simp [lookupKey, hk]
    · have hk' : ¬ key = k := fun h => hk h.symm
      simp [lookupKey, hk, hk', ih]

theorem replaceKey_of_not_mem {V : Type} (key : String) (v : V) (l : List (String × V))
    (h : key ∉ l.map Prod.fst) : replaceKey key v l = l ++ [(key, v)] := by
  induction l with
  | nil => rfl
  | cons p rest ih =>
    obtain ⟨k, x⟩ := p
    simp only [List.map_cons, List.mem_cons, not_or] at h
    have hk : ¬ k = key := fun hk => h.1 hk.symm
    simp [replaceKey, hk, ih h.2]

theorem GoMap.get_eq_none_iff {V : Type} (m : GoMap V) (key : String) :
    m.get key = none ↔ key ∉ m.keys :=
  lookupKey_eq_none_iff key m.entries

theorem GoMap.ext_entries {V : Type} (m m' : GoMap V) (h : m.entries = m'.entries) :
    m = m' := by
  cases m; cases m'; cases h; rfl

theorem Engine.GetCollection_of_mem (e : Engine) (name : String)
    (h : name ∈ e.collections.keys) : (e.GetCollection name).2 = e := by
  unfold Engine.GetCollection
  cases hg : e.collections.get name with
  | none => exact absurd h ((GoMap.get_eq_none_iff _ _).mp hg)
  | some col => rfl

theorem Engine.GetCollection_of_not_mem (e : Engine) (name : String)
    (h : name ∉ e.collections.keys) :
    (e.GetCollection name).2.collections.entries
      = e.collections.entries ++ [(name, { Name := name, Documents := GoMap.empty })] := by
  unfold Engine.GetCollection
  rw [(GoMap.get_eq_none_iff _ _).mpr h]
  exact replaceKey_of_not_mem name _ _ h

/-! ## The engine: unfolding one operation -/

theorem Engine.InsertDocument_eq (e : Engine) (c id : String) (data : Option Fields)
    (now : Time) (io : WriteOutcome) :
    e.InsertDocument c id data now io
      = match e.wal.Write ⟨"INSERT", c, id, data, now⟩ io with
        | (some err, wal) =>
          (Except.error (Error.wrap "writing WAL" err),
            { collections := (e.GetCollection c).2.collections, wal := wal })
        | (none, wal) =>
          (Except.ok ⟨id, data, now, now, sprintHex ((Sum256 (jsonData data)).take 8)⟩,
            Engine.storeDocuments { collections := (e.GetCollection c).2.collections, wal := wal }
              c (e.GetCollection c).1
              ((e.GetCollection c).1.Documents.set id
                ⟨id, data, now, now, sprintHex ((Sum256 (jsonData data)).take 8)⟩)) := by
  unfold Engine.InsertDocument
  simp only [Engine.GetCollection_wal]
  rfl

theorem Engine.lookup_with_wal (cols : GoMap Collection) (w w' : WAL) (c id : String) :
    (Engine.mk cols w).lookup c id = (Engine.mk cols w').lookup c id := rfl

theorem Engine.DeleteDocument_eq (e : Engine) (c id : String) (now : Time) (io : WriteOutcome) :
    e.DeleteDocument c id now io
      = if (e.lookup c id).isSome then
          (true, { collections := ((e.GetCollection c).2.storeDocuments c (e.GetCollection c).1
                      ((e.GetCollection c).1.Documents.delete id)).collections,
                   wal := (e.wal.Write ⟨"DELETE", c, id, none, now⟩ io).2 })
        else (false, (e.GetCollection c).2) := by
  unfold Engine.DeleteDocument
  simp only [Engine.GetCollection_documents]
  cases h : (e.lookup c id).isSome
  · simp
  · simp [Engine.storeDocuments, Engine.GetCollection_wal]

theorem WAL.Write_eq_none (w : WAL) (entry : WALEntry) (io : WriteOutcome)
    (h : (w.Write entry io).1 = none) :
    ∃ line, marshalEntry entry = some line ∧ io = WriteOutcome.ok
      ∧ (w.Write entry io).2.file = w.file ++ line ++ [10] := by
  unfold WAL.Write at h ⊢
  cases hm : marshalEntry entry with
  | none => simp [hm] at h
  | some line =>
    cases io with
    | ok => exact ⟨line, rfl, rfl, by simp⟩
    | writeFails n => simp [hm] at h
    | syncFails => simp [hm] at h

/-- C2 as stated fails: on an engine without collections an insert whose WAL append
fails returns the error, yet the collection it names has been created, so the names
`ListCollections` reports are no longer the ones before the call. -/
theorem insert_wal_failure_adds_collection :
    ((Engine.mk GoMap.empty ⟨[]⟩).wal.Write
        ⟨"INSERT", "users", "u1", some [("name", Value.str "alice")], 0⟩
        (WriteOutcome.writeFails 0)).1 = some Error.write
    ∧ (Engine.mk GoMap.empty ⟨[]⟩).collections.keys = []
    ∧ (Engine.mk GoMap.empty ⟨[]⟩).ListCollections [] = []
    ∧ ((Engine.mk GoMap.empty ⟨[]⟩).InsertDocument "users" "u1"
        (some [("name", Value.str "alice")]) 0 (WriteOutcome.writeFails 0)).2.collections.keys
        = ["users"]
    ∧ ((Engine.mk GoMap.empty ⟨[]⟩).InsertDocument "users" "u1"
        (some [("name", Value.str "alice")]) 0 (WriteOutcome.writeFails 0)).2.ListCollections
        ["users"] = ["users"] := by
  refine ⟨by decide, by decide, by decide, by decide, by decide⟩

/-- C2, amended: when the WAL append fails, `InsertDocument` returns the error and no
document changes: every `GetDocument` answers as before the call (so the ID is still
not found when it was absent), every collection that existed is unchanged, and the only
possible change of state is that the named collection, when the engine did not know
it, now exists and is empty. -/
theorem insert_wal_failure_keeps_documents (e : Engine) (c id : String)
    (data : Option Fields) (now : Time) (io : WriteOutcome) (err : Error)
    (hfail : (e.wal.Write ⟨"INSERT", c, id, data, now⟩ io).1 = some err) :
    (e.InsertDocument c id data now io).1 = Except.error (Error.wrap "writing WAL" err)
    ∧ (∀ c' id' : String,
        ((e.InsertDocument c id data now io).2.GetDocument c' id').1
          = (e.GetDocument c' id').1)
    ∧ (c ∈ e.collections.keys →
        (e.InsertDocument c id data now io).2.collections = e.collections)
    ∧ (c ∉ e.collections.keys →
        (e.InsertDocument c id data now io).2.collections.entries
          = e.collections.entries ++ [(c, { Name := c, Documents := GoMap.empty })]) := by
  have hr : e.InsertDocument c id data now io
      = (Except.error (Error.wrap "writing WAL" err),
          { collections := (e.GetCollection c).2.collections,
            wal := (e.wal.Write ⟨"INSERT", c, id, data, now⟩ io).2 }) := by
    rw [Engine.InsertDocument_eq]
    cases hw : e.wal.Write ⟨"INSERT", c, id, data, now⟩ io with
    | mk r w =>
      rw [hw] at hfail
      simp only at hfail
      subst hfail
      rfl
  rw [hr]
  refine ⟨rfl, ?_, ?_, ?_⟩
  · intro c' id'
    rw [Engine.GetDocument_fst, Engine.GetDocument_fst]
    exact Engine.GetCollection_lookup e c c' id'
  · intro hmem
    simp only [Engine.GetCollection_of_mem e c hmem]
  · intro hmem
    exact Engine.GetCollection_of_not_mem e c hmem

/-- C2, amended, at a failed insert into an engine without collections. -/
theorem insert_wal_failure_keeps_documents_witness :
    ((Engine.mk GoMap.empty ⟨[]⟩).wal.Write ⟨"INSERT", "users", "u1", none, 0⟩
        WriteOutcome.syncFails).1 = some Error.sync
    ∧ ((Engine.mk GoMap.empty ⟨[]⟩).InsertDocument "users" "u1" none 0 WriteOutcome.syncFails).1
        = Except.error (Error.wrap "writing WAL" Error.sync) :=
  ⟨by decide,
    (insert_wal_failure_keeps_documents (Engine.mk GoMap.empty ⟨[]⟩) "users" "u1" none 0
      WriteOutcome.syncFails Error.sync (by decide)).1⟩

/-- C3 at a failing input: document `u1` of `users` is present and the append of its
DELETE entry fails; `DeleteDocument` still answers true, the document is gone from
memory and the WAL holds no DELETE entry: memory was changed before, and regardless
of, the append, and the failure reaches no caller. -/
theorem delete_mutates_despite_wal_failure :
    (((Engine.mk GoMap.empty ⟨[]⟩).InsertDocument "users" "u1"
        (some [("name", Value.str "alice")]) 0 WriteOutcome.ok).2.GetDocument "users" "u1").1.isSome
      = true
    ∧ (((Engine.mk GoMap.empty ⟨[]⟩).InsertDocument "users" "u1"
        (some [("name", Value.str "alice")]) 0 WriteOutcome.ok).2.wal.Write
        ⟨"DELETE", "users", "u1", none, 1⟩ (WriteOutcome.writeFails 0)).1 = some Error.write
    ∧ (((Engine.mk GoMap.empty ⟨[]⟩).InsertDocument "users" "u1"
        (some [("name", Value.str "alice")]) 0 WriteOutcome.ok).2.DeleteDocument "users" "u1" 1
        (WriteOutcome.writeFails 0)).1 = true
    ∧ ((((Engine.mk GoMap.empty ⟨[]⟩).InsertDocument "users" "u1"
        (some [("name", Value.str "alice")]) 0 WriteOutcome.ok).2.DeleteDocument "users" "u1" 1
        (WriteOutcome.writeFails 0)).2.GetDocument "users" "u1").1.isSome = false
    ∧ (((Engine.mk GoMap.empty ⟨[]⟩).InsertDocument "users" "u1"
        (some [("name", Value.str "alice")]) 0 WriteOutcome.ok).2.DeleteDocument "users" "u1" 1
        (WriteOutcome.writeFails 0)).2.wal.file
      = ((Engine.mk GoMap.empty ⟨[]⟩).InsertDocument "users" "u1"
        (some [("name", Value.str "alice")]) 0 WriteOutcome.ok).2.wal.file := by
  refine ⟨by decide, by decide, by decide, by decide, by decide⟩

/-- C4: when the WAL append succeeds, `InsertDocument c id data` returns the document
with ID `id`, Data `data`, CreatedAt and UpdatedAt both the instant of the call and the
checksum of `data`; afterwards `GetDocument c id` finds that document, and `GetDocument`
for every other pair answers as before the call. -/
theorem insert_then_get (e : Engine) (c id : String) (data : Option Fields) (now : Time)
    (io : WriteOutcome) (hok : (e.wal.Write ⟨"INSERT", c, id, data, now⟩ io).1 = none) :
    (e.InsertDocument c id data now io).1
      = Except.ok { ID := id, Data := data, CreatedAt := now, UpdatedAt := now,
                    Checksum := sprintHex ((Sum256 (jsonData data)).take 8) }
    ∧ ((e.InsertDocument c id data now io).2.GetDocument c id).1
      = some { ID := id, Data := data, CreatedAt := now, UpdatedAt := now,
               Checksum := sprintHex ((Sum256 (jsonData data)).take 8) }
    ∧ (∀ c' id' : String, ¬ (c' = c ∧ id' = id) →
        ((e.InsertDocument c id data now io).2.GetDocument c' id').1
          = (e.GetDocument c' id').1) := by
  have hr : e.InsertDocument c id data now io
      = (Except.ok ⟨id, data, now, now, sprintHex ((Sum256 (jsonData data)).take 8)⟩,
          Engine.storeDocuments
            { collections := (e.GetCollection c).2.collections,
              wal := (e.wal.Write ⟨"INSERT", c, id, data, now⟩ io).2 }
            c (e.GetCollection c).1
            ((e.GetCollection c).1.Documents.set id
              ⟨id, data, now, now, sprintHex ((Sum256 (jsonData data)).take 8)⟩)) := by
    rw [Engine.InsertDocument_eq]
    cases hw : e.wal.Write ⟨"INSERT", c, id, data, now⟩ io with
    | mk r w =>
      rw [hw] at hok
      simp only at hok
      subst hok
      rfl
  rw [hr]
  refine ⟨rfl, ?_, ?_⟩
  · rw [Engine.GetDocument_fst, Engine.lookup_storeDocuments]
    simp
  · intro c' id' hne
    rw [Engine.GetDocument_fst, Engine.GetDocument_fst, Engine.lookup_storeDocuments]
    by_cases hc : c = c'
    · subst hc
      have hid : id ≠ id' := fun h => hne ⟨rfl, h.symm⟩
      simp [GoMap.get_set_ne _ _ _ _ hid, Engine.GetCollection_documents]
    · simp only [hc, if_false]
      rw [Engine.lookup_with_wal _ _ (e.GetCollection c).2.wal]
      exact Engine.GetCollection_lookup e c c' id'

/-- C4 at the insert of `u1` into an engine without collections. -/
theorem insert_then_get_witness :
    ((Engine.mk GoMap.empty ⟨[]⟩).wal.Write
        ⟨"INSERT", "users", "u1", some [("name", Value.str "alice")], 0⟩ WriteOutcome.ok).1 = none
    ∧ (((Engine.mk GoMap.empty ⟨[]⟩).InsertDocument "users" "u1"
          (some [("name", Value.str "alice")]) 0 WriteOutcome.ok).2.GetDocument "users" "u1").1
        = some { ID := "u1", Data := some [("name", Value.str "alice")], CreatedAt := 0,
                 UpdatedAt := 0,
                 Checksum := sprintHex ((Sum256 (jsonData (some [("name", Value.str "alice")]))).take 8) } :=
  ⟨by decide,
    (insert_then_get (Engine.mk GoMap.empty ⟨[]⟩) "users" "u1"
      (some [("name", Value.str "alice")]) 0 WriteOutcome.ok (by decide)).2.1⟩

set_option maxRecDepth 100000 in
/-- C5 at a failing input: document `d7` of `logs` is present and the append of its
DELETE entry fails; `DeleteDocument` answers true although the WAL file is the one
before the call, no DELETE entry having been appended: it drops the error of the
write, where the claim has one DELETE entry in the WAL whenever true is returned. -/
theorem delete_true_without_wal_entry :
    (((Engine.mk GoMap.empty ⟨[]⟩).InsertDocument "logs" "d7" (some [("n", Value.num 7)]) 5
        WriteOutcome.ok).2.DeleteDocument "logs" "d7" 6 (WriteOutcome.writeFails 0)).1 = true
    ∧ (((Engine.mk GoMap.empty ⟨[]⟩).InsertDocument "logs" "d7" (some [("n", Value.num 7)]) 5
        WriteOutcome.ok).2.DeleteDocument "logs" "d7" 6 (WriteOutcome.writeFails 0)).2.wal.file
      = ((Engine.mk GoMap.empty ⟨[]⟩).InsertDocument "logs" "d7" (some [("n", Value.num 7)]) 5
        WriteOutcome.ok).2.wal.file := by
  refine ⟨by decide, by decide⟩

/-- What `DeleteDocument c id` does when the append of the DELETE entry goes through: it
answers true exactly when the document was present; afterwards `GetDocument c id`
finds nothing and every other document is unchanged; when it answers false the WAL is
unchanged; when it answers true the WAL file has grown by exactly the line of the
entry DELETE, `c`, `id`, no data. -/
theorem Engine.DeleteDocument_of_append_ok (e : Engine) (c id : String) (now : Time)
    (io : WriteOutcome) (hok : (e.wal.Write ⟨"DELETE", c, id, none, now⟩ io).1 = none) :
    (e.DeleteDocument c id now io).1 = (e.GetDocument c id).1.isSome
    ∧ ((e.DeleteDocument c id now io).2.GetDocument c id).1 = none
    ∧ (∀ c' id' : String, ¬ (c' = c ∧ id' = id) →
        ((e.DeleteDocument c id now io).2.GetDocument c' id').1 = (e.GetDocument c' id').1)
    ∧ ((e.DeleteDocument c id now io).1 = false →
        (e.DeleteDocument c id now io).2.wal = e.wal)
    ∧ ((e.DeleteDocument c id now io).1 = true →
        ∃ line, marshalEntry ⟨"DELETE", c, id, none, now⟩ = some line
          ∧ (e.DeleteDocument c id now io).2.wal.file = e.wal.file ++ line ++ [10]) := by
  rw [Engine.DeleteDocument_eq, Engine.GetDocument_fst]
  cases hfound : (e.lookup c id).isSome
  · simp only [Bool.false_eq_true, if_false]
    refine ⟨trivial, ?_, ?_, ?_, ?_⟩
    · rw [Engine.GetDocument_fst, Engine.GetCollection_lookup]
      simpa using hfound
    · intro c' id' _
      rw [Engine.GetDocument_fst, Engine.GetDocument_fst, Engine.GetCollection_lookup]
    · intro _
      exact Engine.GetCollection_wal e c
    · intro h
      exact absurd h (by simp)
  · simp only [if_true]
    refine ⟨trivial, ?_, ?_, ?_, ?_⟩
    · rw [Engine.GetDocument_fst,
        Engine.lookup_with_wal _ _
          ((e.GetCollection c).2.storeDocuments c (e.GetCollection c).1
            ((e.GetCollection c).1.Documents.delete id)).wal]
      show ((e.GetCollection c).2.storeDocuments c (e.GetCollection c).1
            ((e.GetCollection c).1.Documents.delete id)).lookup c id = none
      rw [Engine.lookup_storeDocuments]
      simp
    · intro c' id' hne
      rw [Engine.GetDocument_fst, Engine.GetDocument_fst,
        Engine.lookup_with_wal _ _
          ((e.GetCollection c).2.storeDocuments c (e.GetCollection c).1
            ((e.GetCollection c).1.Documents.delete id)).wal]
      show ((e.GetCollection c).2.storeDocuments c (e.GetCollection c).1
            ((e.GetCollection c).1.Documents.delete id)).lookup c' id' = e.lookup c' id'
      rw [Engine.lookup_storeDocuments]
      by_cases hc : c = c'
      · subst hc
        have hid : id ≠ id' := fun h => hne ⟨rfl, h.symm⟩
        simp [GoMap.get_delete_ne _ _ _ hid, Engine.GetCollection_documents]
      · simp only [hc, if_false]
        exact Engine.GetCollection_lookup e c c' id'
    · intro h
      exact absurd h (by simp)
    · intro _
      obtain ⟨line, hline, _, hfile⟩ := WAL.Write_eq_none e.wal _ io hok
      exact ⟨line, hline, hfile⟩

/-! ## Range loops and queries -/

theorem range_keys_entries {V : Type} (l : List (String × V)) (h : (l.map Prod.fst).Nodup) :
    (l.map Prod.fst).filterMap (fun key => (lookupKey key l).map (fun v => (key, v))) = l := by
  induction l with
  | nil => rfl
  | cons p rest ih =>
    obtain ⟨k, x⟩ := p
    simp only [List.map_cons, List.nodup_cons] at h
    have hrest : (rest.map Prod.fst).filterMap
        (fun key => (lookupKey key ((k, x) :: rest)).map (fun v => (key, v)))
        = (rest.map Prod.fst).filterMap
            (fun key => (lookupKey key rest).map (fun v => (key, v))) := by
      apply List.filterMap_congr
      intro key hkey
      have hne : ¬ k = key := fun hk => h.1 (hk ▸ hkey)
      simp [lookupKey, hne]
    simp only [List.map_cons, List.filterMap_cons]
    rw [hrest, ih h.2]
    simp [lookupKey]

theorem GoMap.range_perm {V : Type} (m : GoMap V) (order : List String)
    (h : m.RangeOrder order) : (m.range order).Perm m.entries := by
  have hp : (m.range order).Perm (m.range m.keys) := List.Perm.filterMap _ h
  have hk : m.range m.keys = m.entries := range_keys_entries m.entries m.nodup
  rw [hk] at hp
  exact hp

theorem GoMap.range_fst {V : Type} (m : GoMap V) (order : List String) :
    (m.range order).map Prod.fst = order.filter (fun key => (m.get key).isSome) := by
  induction order with
  | nil => rfl
  | cons key rest ih =>
    unfold GoMap.range at ih ⊢
    cases hg : m.get key with
    | none => simp [List.filterMap_cons, List.filter_cons, hg, ih]
    | some v => simp [List.filterMap_cons, List.filter_cons, hg, ih]

theorem GoMap.range_get {V : Type} (m : GoMap V) (order : List String) :
    (m.range order).map (fun p => m.get p.1) = (m.range order).map (fun p => some p.2) := by
  induction order with
  | nil => rfl
  | cons key rest ih =>
    unfold GoMap.range at ih ⊢
    cases hg : m.get key with
    | none => simpa [List.filterMap_cons, hg] using ih
    | some v => simpa [List.filterMap_cons, hg] using ih

/-- The documents among `l` that match the filter, in the order of `l`. -/
theorem queryLoop_all (filter : Option Fields) (limit : Int) (hlimit : limit ≤ 0)
    (l : List (String × Document)) (acc : List Document) :
    queryLoop filter limit l acc
      = acc ++ (l.filter (fun p => matchesFilter p.2.Data filter)).map Prod.snd := by
  induction l generalizing acc with
  | nil => simp [queryLoop]
  | cons p rest ih =>
    obtain ⟨k, doc⟩ := p
    have hnot : ¬ limit > 0 := not_lt.mpr hlimit
    cases hm : matchesFilter doc.Data filter
    · simp [queryLoop, hm, ih]
    · simp [queryLoop, hm, hnot, ih]

theorem queryLoop_take (filter : Option Fields) (limit : Int) (hlimit : 0 < limit)
    (l : List (String × Document)) (acc : List Document)
    (hacc : (acc.length : Int) < limit) :
    queryLoop filter limit l acc
      = (acc ++ (l.filter (fun p => matchesFilter p.2.Data filter)).map Prod.snd).take
          limit.toNat := by
  induction l generalizing acc with
  | nil =>
    have : acc.length ≤ limit.toNat := by omega
    simp [queryLoop, List.take_of_length_le this]
  | cons p rest ih =>
    obtain ⟨k, doc⟩ := p
    cases hm : matchesFilter doc.Data filter
    · simp only [queryLoop, hm, Bool.false_eq_true, if_false, List.filter_cons]
      exact ih acc hacc
    · simp only [queryLoop, hm, if_true, List.filter_cons, List.map_cons]
      by_cases hfull : ((acc ++ [doc]).length : Int) ≥ limit
      · have hlen : (acc ++ [doc]).length = limit.toNat := by
          simp only [List.length_append, List.length_singleton] at hfull ⊢
          omega
        rw [if_pos ⟨hlimit, hfull⟩]
        have : acc ++ doc :: (rest.filter (fun p => matchesFilter p.2.Data filter)).map Prod.snd
            = (acc ++ [doc]) ++ (rest.filter (fun p => matchesFilter p.2.Data filter)).map Prod.snd := by
          simp
        rw [this, ← hlen, List.take_left]
      · have hlt : ((acc ++ [doc]).length : Int) < limit := not_le.mp hfull
        rw [if_neg (fun h => hfull h.2), ih (acc ++ [doc]) hlt]
        simp

theorem Engine.QueryDocuments_fst (e : Engine) (c : String) (filter : Option Fields)
    (limit : Int) (order : List String) :
    (e.QueryDocuments c filter limit order).1
      = queryLoop filter limit ((e.GetCollection c).1.Documents.range order) [] := rfl

theorem matchesLoop_iff (data : Option Fields) (filter : Fields) :
    matchesLoop data filter = true
      ↔ ∀ key val, (key, val) ∈ filter →
          ∃ docVal, data.bind (fun d => Fields.get d key) = some docVal
            ∧ sprintV docVal = sprintV val := by
  induction filter with
  | nil => simp [matchesLoop]
  | cons p rest ih =>
    obtain ⟨k, v⟩ := p
    cases hget : data.bind (fun d => Fields.get d k) with
    | none =>
      simp only [matchesLoop, hget, Bool.false_eq_true, false_iff]
      intro h
      obtain ⟨docVal, hd, _⟩ := h k v (List.mem_cons_self _ _)
      rw [hget] at hd
      exact Option.noConfusion hd
    | some docVal =>
      by_cases heq : sprintV docVal = sprintV v
      · simp only [matchesLoop, hget, heq, ne_eq, not_true_eq_false, if_false, ih]
        constructor
        · intro h key val hmem
          rcases List.mem_cons.mp hmem with hh | hh
          · cases hh
            exact ⟨docVal, hget, heq⟩
          · exact h key val hh
        · intro h key val hmem
          exact h key val (List.mem_cons_of_mem _ hmem)
      · simp only [matchesLoop, hget, ne_eq, heq, not_false_eq_true, if_true,
          Bool.false_eq_true, false_iff]
        intro h
        obtain ⟨docVal', hd, hs⟩ := h k v (List.mem_cons_self _ _)
        rw [hget] at hd
        cases hd
        exact heq hs

theorem matchesFilter_iff (data filter : Option Fields) :
    matchesFilter data filter = true
      ↔ ∀ key val, (key, val) ∈ filter.getD [] →
          ∃ docVal, data.bind (fun d => Fields.get d key) = some docVal
            ∧ sprintV docVal = sprintV val := by
  unfold matchesFilter
  cases filter with
  | none => simp [dataLen]
  | some kvs =>
    cases kvs with
    | nil => simp [dataLen]
    | cons p rest =>
      simp only [dataLen, List.length_cons, Nat.add_one_ne_zero, if_false, Option.getD_some]
      exact matchesLoop_iff data (p :: rest)

/-- C6 as stated fails: the only document of `c` has the number 1 under `k`, the
filter asks for the string "1" under `k`, and the query returns the document: the
values are compared through their `%v` texts, which are both `1`. -/
theorem query_number_matches_string :
    (((Engine.mk GoMap.empty ⟨[]⟩).InsertDocument "c" "n1" (some [("k", Value.num 1)]) 0
        WriteOutcome.ok).2.GetDocument "c" "n1").1.map (fun d => d.Data.bind (fun f => Fields.get f "k"))
      = some (some (Value.num 1))
    ∧ Value.num 1 ≠ Value.str "1"
    ∧ (((Engine.mk GoMap.empty ⟨[]⟩).InsertDocument "c" "n1" (some [("k", Value.num 1)]) 0
        WriteOutcome.ok).2.QueryDocuments "c" (some [("k", Value.str "1")]) 0 ["n1"]).1.map
        (fun d => d.ID) = ["n1"] := by
  refine ⟨rfl, ?_, by decide⟩
  intro h
  cases h

/-- C6, amended: with `limit <= 0`, `QueryDocuments` returns, each exactly once, the
documents of the collection that match the filter, where a document matches when for
every (key, value) pair of the filter its Data has a top-level field `key` whose value
has the same `%v` text as `value` (so the number 1 and the string "1" match each
other); an empty or absent filter is matched by every document, and a document that
lacks a filter key does not match. For `{k:a}`, `{k:b}`, `{k:a}` under IDs 1, 2, 3 and
filter `{k:a}` the result is the documents 1 and 3. -/
theorem query_matches_by_rendering (e : Engine) (c : String) (filter : Option Fields)
    (limit : Int) (order : List String) (hlimit : limit ≤ 0)
    (horder : (e.GetCollection c).1.Documents.RangeOrder order) :
    (e.QueryDocuments c filter limit order).1.Perm
        (((e.GetCollection c).1.Documents.entries.filter
          (fun p => matchesFilter p.2.Data filter)).map Prod.snd)
    ∧ (∀ data : Option Fields,
        matchesFilter data filter = true
          ↔ ∀ key val, (key, val) ∈ filter.getD [] →
              ∃ docVal, data.bind (fun d => Fields.get d key) = some docVal
                ∧ sprintV docVal = sprintV val)
    ∧ (∀ data : Option Fields,
        matchesFilter data none = true ∧ matchesFilter data (some []) = true)
    ∧ (∀ (data : Option Fields) (key : String) (val : Value),
        (key, val) ∈ filter.getD [] → data.bind (fun d => Fields.get d key) = none →
          matchesFilter data filter = false)
    ∧ (∀ order' : List String, (queryExample.GetCollection "c").1.Documents.RangeOrder order' →
        ((queryExample.QueryDocuments "c" (some [("k", Value.str "a")]) limit order').1.map
          (fun d => d.ID)).Perm ["1", "3"]) := by
  refine ⟨?_, fun data => matchesFilter_iff data filter, fun data => ⟨rfl, rfl⟩, ?_, ?_⟩
  · rw [Engine.QueryDocuments_fst, queryLoop_all filter limit hlimit, List.nil_append]
    exact ((GoMap.range_perm _ order horder).filter _).map _
  · intro data key val hmem hnone
    cases hm : matchesFilter data filter with
    | false => rfl
    | true =>
      obtain ⟨docVal, hd, _⟩ := (matchesFilter_iff data filter).mp hm key val hmem
      rw [hnone] at hd
      exact Option.noConfusion hd
  · intro order' horder'
    rw [Engine.QueryDocuments_fst, queryLoop_all _ limit hlimit, List.nil_append]
    have hp := (((GoMap.range_perm _ order' horder').filter
      (fun p => matchesFilter p.2.Data (some [("k", Value.str "a")]))).map Prod.snd).map
      (fun d : Document => d.ID)
    have hv : ((((queryExample.GetCollection "c").1.Documents.entries.filter
        (fun p => matchesFilter p.2.Data (some [("k", Value.str "a")]))).map Prod.snd).map
        (fun d : Document => d.ID)) = ["1", "3"] := by decide
    rw [hv] at hp
    exact hp

/-- C6, amended, at the three-document collection, visited in the order 3, 1, 2. -/
theorem query_matches_by_rendering_witness :
    (0 : Int) ≤ 0
    ∧ (queryExample.GetCollection "c").1.Documents.RangeOrder ["3", "1", "2"]
    ∧ (queryExample.QueryDocuments "c" (some [("k", Value.str "a")]) 0 ["3", "1", "2"]).1.Perm
        (((queryExample.GetCollection "c").1.Documents.entries.filter
          (fun p => matchesFilter p.2.Data (some [("k", Value.str "a")]))).map Prod.snd) :=
  ⟨le_refl 0, by decide,
    (query_matches_by_rendering queryExample "c" (some [("k", Value.str "a")]) 0
      ["3", "1", "2"] (le_refl 0) (by decide)).1⟩

/-- C7: `QueryDocuments` truncates to `limit`. With `m` the number of documents of the
collection that match the filter, the result has `min limit m` documents when
`limit > 0` and `m` documents when `limit <= 0`; the returned documents are the values
of pairwise distinct IDs of the collection, and each of them matches the filter. -/
theorem query_truncates_to_limit (e : Engine) (c : String) (filter : Option Fields)
    (limit : Int) (order : List String)
    (horder : (e.GetCollection c).1.Documents.RangeOrder order) :
    (0 < limit →
      ((e.QueryDocuments c filter limit order).1.length : Int)
        = min limit (((e.GetCollection c).1.Documents.entries.filter
            (fun p => matchesFilter p.2.Data filter)).length : Int))
    ∧ (limit ≤ 0 →
      (e.QueryDocuments c filter limit order).1.length
        = ((e.GetCollection c).1.Documents.entries.filter
            (fun p => matchesFilter p.2.Data filter)).length)
    ∧ (∃ ids : List String, ids.Nodup
        ∧ ids.map (fun id => (e.GetCollection c).1.Documents.get id)
            = (e.QueryDocuments c filter limit order).1.map some)
    ∧ (∀ d ∈ (e.QueryDocuments c filter limit order).1, matchesFilter d.Data filter = true) := by
  have hperm := GoMap.range_perm _ order horder
  have hlen : (((e.GetCollection c).1.Documents.range order).filter
      (fun p => matchesFilter p.2.Data filter)).length
      = ((e.GetCollection c).1.Documents.entries.filter
          (fun p => matchesFilter p.2.Data filter)).length :=
    (hperm.filter _).length_eq
  have hnd : (((e.GetCollection c).1.Documents.range order).map Prod.fst).Nodup :=
    (hperm.map Prod.fst).nodup_iff.mpr (e.GetCollection c).1.Documents.nodup
  -- the matching pairs, in the order of the visit, and the prefix the loop keeps
  obtain ⟨kept, hsub, hres⟩ : ∃ kept : List (String × Document),
      kept.Sublist (((e.GetCollection c).1.Documents.range order).filter
        (fun p => matchesFilter p.2.Data filter))
      ∧ (e.QueryDocuments c filter limit order).1 = kept.map Prod.snd := by
    rw [Engine.QueryDocuments_fst]
    by_cases hl : 0 < limit
    · refine ⟨(((e.GetCollection c).1.Documents.range order).filter
        (fun p => matchesFilter p.2.Data filter)).take limit.toNat, List.take_sublist _ _, ?_⟩
      rw [queryLoop_take filter limit hl _ [] (by simpa using hl), List.nil_append,
        List.map_take]
    · refine ⟨_, List.Sublist.refl _, ?_⟩
      rw [queryLoop_all filter limit (not_lt.mp hl), List.nil_append]
  have hsub' : kept.Sublist ((e.GetCollection c).1.Documents.range order) :=
    hsub.trans (List.filter_sublist _)
  refine ⟨?_, ?_, ⟨kept.map Prod.fst, hnd.sublist (hsub'.map _), ?_⟩, ?_⟩
  · intro hl
    rw [Engine.QueryDocuments_fst, queryLoop_take filter limit hl _ [] (by simpa using hl),
      List.nil_append, List.length_take, List.length_map, hlen]
    omega
  · intro hl
    rw [Engine.QueryDocuments_fst, queryLoop_all filter limit hl, List.nil_append,
      List.length_map, hlen]
  · rw [hres, List.map_map, List.map_map]
    have hall : ∀ p ∈ kept, (e.GetCollection c).1.Documents.get p.1 = some p.2 := by
      intro p hp
      have hp' : p ∈ (e.GetCollection c).1.Documents.range order := hsub'.subset hp
      unfold GoMap.range at hp'
      obtain ⟨key, _, hkey⟩ := List.mem_filterMap.mp hp'
      cases hg : (e.GetCollection c).1.Documents.get key with
      | none => simp [hg] at hkey
      | some v =>
        simp only [hg, Option.map_some', Option.some.injEq] at hkey
        subst hkey
        exact hg
    exact List.map_congr_left (fun p hp => hall p hp)
  · intro d hd
    rw [hres] at hd
    obtain ⟨p, hp, rfl⟩ := List.mem_map.mp hd
    have := (List.mem_filter.mp (hsub.subset hp)).2
    simpa using this

/-- C7 at the three-document collection with limit 1, visited in the order 3, 1, 2. -/
theorem query_truncates_to_limit_witness :
    (queryExample.GetCollection "c").1.Documents.RangeOrder ["3", "1", "2"]
    ∧ (∀ d ∈ (queryExample.QueryDocuments "c" (some [("k", Value.str "a")]) 1
          ["3", "1", "2"]).1, matchesFilter d.Data (some [("k", Value.str "a")]) = true) :=
  ⟨by decide,
    (query_truncates_to_limit queryExample "c" (some [("k", Value.str "a")]) 1
      ["3", "1", "2"] (by decide)).2.2.2⟩

/-! ## Checksums -/

theorem Sum256_length (data : Bytes) : (Sum256 data).length = 32 := by
  simp [Sum256, wordBytes]

theorem hexDigit_mem (n : Nat) (h : n < 16) : hexDigit n ∈ "0123456789abcdef".toList := by
  interval_cases n <;> decide

theorem sprintHex_length (b : Bytes) : (sprintHex b).length = 2 * b.length := by
  unfold sprintHex
  rw [String.length_mk]
  induction b with
  | nil => rfl
  | cons x rest ih =>
    simp only [List.flatMap_cons, List.length_append, List.length_cons, List.length_nil, ih]
    omega

theorem sprintHex_chars (b : Bytes) :
    ∀ ch ∈ (sprintHex b).toList, ch ∈ "0123456789abcdef".toList := by
  intro ch hch
  unfold sprintHex at hch
  simp only [String.toList, List.mem_flatMap] at hch
  obtain ⟨x, _, hx⟩ := hch
  simp only [List.mem_cons, List.mem_singleton, List.not_mem_nil, or_false] at hx
  rcases hx with hx | hx
  · rw [hx]
    exact hexDigit_mem _ (Nat.mod_lt _ (by decide))
  · rw [hx]
    exact hexDigit_mem _ (Nat.mod_lt _ (by decide))

/-- C10: the checksum is a pure function of Data. `computeChecksum` is the lowercase
hexadecimal text of the first 8 bytes of the SHA-256 digest of the JSON serialization of
Data, always exactly 16 characters, each a lowercase hexadecimal digit; the document
`InsertDocument` returns and the document a replayed INSERT entry stores carry that
checksum of their Data, whatever the ID, collection and instant; and two inserts of the
same data (in any engines, under any IDs, at any instants) return equal checksums. -/
theorem checksum_pure_function_of_data :
    (∀ doc : Document,
      computeChecksum doc = sprintHex ((Sum256 (jsonData doc.Data)).take 8))
    ∧ (∀ doc : Document,
        (computeChecksum doc).length = 16
        ∧ ∀ ch ∈ (computeChecksum doc).toList, ch ∈ "0123456789abcdef".toList)
    ∧ (∀ (e : Engine) (c id : String) (data : Option Fields) (now : Time)
        (io : WriteOutcome) (doc : Document),
        (e.InsertDocument c id data now io).1 = Except.ok doc →
          doc.Checksum = sprintHex ((Sum256 (jsonData data)).take 8))
    ∧ (∀ (e : Engine) (entry : WALEntry), entry.Operation = "INSERT" →
        ∃ doc, ((e.applyEntry entry).GetDocument entry.Collection entry.DocumentID).1
            = some doc
          ∧ doc.Checksum = sprintHex ((Sum256 (jsonData entry.Data)).take 8))
    ∧ (∀ (e e' : Engine) (c c' id id' : String) (data : Option Fields) (now now' : Time)
        (io io' : WriteOutcome) (doc doc' : Document),
        (e.InsertDocument c id data now io).1 = Except.ok doc →
        (e'.InsertDocument c' id' data now' io').1 = Except.ok doc' →
          doc.Checksum = doc'.Checksum)
    ∧ computeChecksum ⟨"a", some [("x", Value.num 1)], 0, 0, ""⟩ = "5041bf1f713df204" := by
  have hins : ∀ (e : Engine) (c id : String) (data : Option Fields) (now : Time)
      (io : WriteOutcome) (doc : Document),
      (e.InsertDocument c id data now io).1 = Except.ok doc →
        doc.Checksum = sprintHex ((Sum256 (jsonData data)).take 8) := by
    intro e c id data now io doc h
    rw [Engine.InsertDocument_eq] at h
    cases hw : e.wal.Write ⟨"INSERT", c, id, data, now⟩ io with
    | mk r w =>
      rw [hw] at h
      cases r with
      | some err => simp at h
      | none =>
        simp only [Except.ok.injEq] at h
        rw [← h]
  refine ⟨fun doc => rfl, ?_, hins, ?_, ?_, by decide⟩
  · intro doc
    refine ⟨?_, sprintHex_chars _⟩
    rw [computeChecksum_eq, sprintHex_length, List.length_take, Sum256_length]
    rfl
  · intro e entry hop
    refine ⟨replayedDocument entry, ?_, rfl⟩
    rw [Engine.GetDocument_fst, Engine.lookup_applyEntry]
    simp [hop]
  · intro e e' c c' id id' data now now' io io' doc doc' h h'
    rw [hins e c id data now io doc h, hins e' c' id' data now' io' doc' h']

/-! ## Reading the WAL back -/

theorem Engine.loadFromDisk_wal (e : Engine) (snapshot : Option (List (String × GoMap Document))) :
    (e.loadFromDisk snapshot).wal = e.wal := by
  cases snapshot with
  | none => rfl
  | some dd =>
    unfold Engine.loadFromDisk
    simp only
    induction dd generalizing e with
    | nil => rfl
    | cons p rest ih => rw [List.foldl_cons, ih]

theorem readLoop_eq (lines : List Bytes) (entries : List WALEntry) :
    readLoop lines entries
      = entries ++ lines.filterMap
          (fun line => if line.length = 0 then none else unmarshalEntry line) := by
  induction lines generalizing entries with
  | nil => simp [readLoop]
  | cons line rest ih =>
    by_cases hl : line.length = 0
    · simp only [readLoop, hl, if_true, ih, List.filterMap_cons]
    · cases hu : unmarshalEntry line with
      | none => simp only [readLoop, hl, if_false, hu, ih, List.filterMap_cons]
      | some entry =>
        simp only [readLoop, hl, if_false, hu, ih, List.filterMap_cons, List.append_assoc,
          List.singleton_append]

theorem splitLoop_line (line rest cur : Bytes) (lines : List Bytes)
    (h : ∀ b ∈ line, b ≠ 10) :
    splitLoop (line ++ 10 :: rest) cur lines = splitLoop rest [] (lines ++ [cur ++ line]) := by
  induction line generalizing cur with
  | nil => simp [splitLoop]
  | cons b bs ih =>
    have hb : b ≠ 10 := h b (List.mem_cons_self _ _)
    have hbs : ∀ x ∈ bs, x ≠ 10 := fun x hx => h x (List.mem_cons_of_mem _ hx)
    have h2 := ih (cur ++ [b]) hbs
    simp [splitLoop, hb, h2]

theorem splitLoop_last (line cur : Bytes) (lines : List Bytes) (h : ∀ b ∈ line, b ≠ 10) :
    splitLoop line cur lines
      = if 0 < (cur ++ line).length then lines ++ [cur ++ line] else lines := by
  induction line generalizing cur with
  | nil => simp [splitLoop]
  | cons b bs ih =>
    have hb : b ≠ 10 := h b (List.mem_cons_self _ _)
    have hbs : ∀ x ∈ bs, x ≠ 10 := fun x hx => h x (List.mem_cons_of_mem _ hx)
    have h2 := ih (cur ++ [b]) hbs
    simp [splitLoop, hb, h2]

/-- The lines of a file made of newline-terminated lines and a last line without a
newline: the terminated lines in order, then the last one unless it is empty. -/
theorem splitLines_lines (ls : List Bytes) (last : Bytes)
    (h : ∀ l ∈ ls, ∀ b ∈ l, b ≠ 10) (hlast : ∀ b ∈ last, b ≠ 10) :
    splitLines (ls.flatMap (fun l => l ++ [10]) ++ last)
      = ls ++ (if 0 < last.length then [last] else []) := by
  have hgen : ∀ (ls : List Bytes) (acc : List Bytes), (∀ l ∈ ls, ∀ b ∈ l, b ≠ 10) →
      splitLoop (ls.flatMap (fun l => l ++ [10]) ++ last) [] acc
        = acc ++ ls ++ (if 0 < last.length then [last] else []) := by
    intro ls
    induction ls with
    | nil =>
      intro acc _
      rw [List.flatMap_nil, List.nil_append, splitLoop_last last [] acc hlast]
      by_cases hl : 0 < last.length <;> simp [hl]
    | cons l rest ih =>
      intro acc hall
      have hl : ∀ b ∈ l, b ≠ 10 := hall l (List.mem_cons_self _ _)
      have hrest : ∀ x ∈ rest, ∀ b ∈ x, b ≠ 10 :=
        fun x hx => hall x (List.mem_cons_of_mem _ hx)
      have hshape : (l :: rest).flatMap (fun l => l ++ [10]) ++ last
          = l ++ 10 :: (rest.flatMap (fun l => l ++ [10]) ++ last) := by
        simp [List.flatMap_cons]
      rw [hshape, splitLoop_line l _ [] acc hl, ih (acc ++ [[] ++ l]) hrest]
      simp
  have := hgen ls [] h
  simpa [splitLines] using this

/-- The entries `ReadAll` returns: the parsed entries of the non-empty lines that
parse, in the order of the file. -/
theorem WAL.ReadAll_eq (w : WAL) :
    w.ReadAll = (splitLines w.file).filterMap
      (fun line => if line.length = 0 then none else unmarshalEntry line) := by
  rw [WAL.ReadAll, readLoop_eq, List.nil_append]

set_option maxRecDepth 1000000 in
theorem readAll_after_insert_empty :
    ((NewEngine none []).InsertDocument "users" "u1" (some []) 5 WriteOutcome.ok).2.wal.ReadAll
      = [⟨"INSERT", "users", "u1", none, 5⟩] := by
  rfl

set_option maxRecDepth 1000000 in
theorem readAll_after_insert_alice :
    ((NewEngine none []).InsertDocument "users" "u1" (some [("name", Value.str "alice")]) 5
        WriteOutcome.ok).2.wal.ReadAll
      = [⟨"INSERT", "users", "u1", some [("name", Value.str "alice")], 5⟩] := by
  rfl

theorem NewEngine_lookup_of_insert (snapshot : Option (List (String × GoMap Document)))
    (file : Bytes) (entry : WALEntry) (h : (WAL.mk file).ReadAll = [entry])
    (hop : entry.Operation = "INSERT") :
    ((NewEngine snapshot file).GetDocument entry.Collection entry.DocumentID).1
      = some (replayedDocument entry) := by
  have hw : ((Engine.mk GoMap.empty ⟨file⟩).loadFromDisk snapshot).wal = ⟨file⟩ :=
    Engine.loadFromDisk_wal _ snapshot
  have hnew : NewEngine snapshot file
      = ((Engine.mk GoMap.empty ⟨file⟩).loadFromDisk snapshot).applyEntry entry := by
    unfold NewEngine Engine.recover
    simp only [hw, h]
    rfl
  rw [hnew, Engine.GetDocument_fst, Engine.lookup_applyEntry]
  simp [hop]

/-- C8 at a failing input: on an engine built from an empty WAL and no snapshot,
`InsertDocument("users", "u1", {})` succeeds and returns the document whose Data
serializes to `{}`; the WAL line written for it has no `data` member, so after the
engine is reopened on the same WAL, whatever the data file holds, `GetDocument` finds
`u1` with a nil Data, which serializes to `null`. With the payload `{"name":"alice"}`
the reopened engine returns the Data that was inserted. -/
theorem reopen_turns_empty_object_into_null
    (snapshot : Option (List (String × GoMap Document))) :
    (((NewEngine none []).InsertDocument "users" "u1" (some []) 5
        WriteOutcome.ok).1.toOption.map (fun d => (d.ID, jsonData d.Data)))
      = some ("u1", utf8 "{}")
    ∧ ((NewEngine snapshot
          ((NewEngine none []).InsertDocument "users" "u1" (some []) 5
            WriteOutcome.ok).2.wal.file).GetDocument "users" "u1").1.map
          (fun d => (d.ID, jsonData d.Data))
        = some ("u1", utf8 "null")
    ∧ ((NewEngine snapshot
          ((NewEngine none []).InsertDocument "users" "u1"
            (some [("name", Value.str "alice")]) 5
            WriteOutcome.ok).2.wal.file).GetDocument "users" "u1").1.map
          (fun d => (d.ID, jsonData d.Data))
        = some ("u1", jsonData (some [("name", Value.str "alice")])) := by
  refine ⟨by decide, ?_, ?_⟩
  · have h : ((NewEngine snapshot
          ((NewEngine none []).InsertDocument "users" "u1" (some []) 5
            WriteOutcome.ok).2.wal.file).GetDocument "users" "u1").1
        = some (replayedDocument ⟨"INSERT", "users", "u1", none, 5⟩) :=
      NewEngine_lookup_of_insert snapshot _ _ readAll_after_insert_empty rfl
    rw [h]
    decide
  · have h : ((NewEngine snapshot
          ((NewEngine none []).InsertDocument "users" "u1"
            (some [("name", Value.str "alice")]) 5
            WriteOutcome.ok).2.wal.file).GetDocument "users" "u1").1
        = some (replayedDocument
            ⟨"INSERT", "users", "u1", some [("name", Value.str "alice")], 5⟩) :=
      NewEngine_lookup_of_insert snapshot _ _ readAll_after_insert_alice rfl
    rw [h]
    rfl

/-- C9 at a failing input: the entry INSERT, `logs`, `d1`, Data `{}` is written by a
successful `Write` to an empty log, and `ReadAll` returns one entry that has the same
operation, collection, document ID and timestamp but a nil Data (serialized `null`,
not `{}`): the entry read back is not the entry written. -/
theorem readAll_returns_entry_without_data :
    ((WAL.mk []).Write ⟨"INSERT", "logs", "d1", some [], 7⟩ WriteOutcome.ok).1 = none
    ∧ jsonData (WALEntry.mk "INSERT" "logs" "d1" (some []) 7).Data = utf8 "{}"
    ∧ ((WAL.mk []).Write ⟨"INSERT", "logs", "d1", some [], 7⟩ WriteOutcome.ok).2.ReadAll.map
        (fun e => [e.Operation, e.Collection, e.DocumentID]) = [["INSERT", "logs", "d1"]]
    ∧ ((WAL.mk []).Write ⟨"INSERT", "logs", "d1", some [], 7⟩ WriteOutcome.ok).2.ReadAll.map
        (fun e => e.Timestamp) = [7]
    ∧ ((WAL.mk []).Write ⟨"INSERT", "logs", "d1", some [], 7⟩ WriteOutcome.ok).2.ReadAll.map
        (fun e => e.Data.isSome) = [false]
    ∧ ((WAL.mk []).Write ⟨"INSERT", "logs", "d1", some [], 7⟩ WriteOutcome.ok).2.ReadAll.map
        (fun e => jsonData e.Data) = [utf8 "null"] := by
  refine ⟨by decide, by decide, by decide, by decide, by decide, by decide⟩

/-! ## Replaying twice -/

theorem replaceKey_of_lookupKey {V : Type} (key : String) (v : V) (l : List (String × V))
    (h : lookupKey key l = some v) : replaceKey key v l = l := by
  induction l with
  | nil => simp [lookupKey] at h
  | cons p rest ih =>
    obtain ⟨k, x⟩ := p
    by_cases hk : k = key
    · subst hk
      simp only [lookupKey, if_true, Option.some.injEq] at h
      simp [replaceKey, h]
    · simp only [lookupKey, hk, if_false] at h
      simp [replaceKey, hk, ih h]

theorem GoMap.set_of_get {V : Type} (m : GoMap V) (key : String) (v : V)
    (h : m.get key = some v) : m.set key v = m :=
  GoMap.ext_entries _ _ (replaceKey_of_lookupKey key v m.entries h)

theorem GoMap.set_set {V : Type} (m : GoMap V) (key : String) (v : V) :
    (m.set key v).set key v = m.set key v :=
  GoMap.set_of_get _ key v (GoMap.get_set_self m key v)

theorem GoMap.delete_delete {V : Type} (m : GoMap V) (key : String) :
    (m.delete key).delete key = m.delete key := by
  apply GoMap.ext_entries
  simp [GoMap.delete, removeKey, List.filter_filter]

theorem Engine.GetCollection_of_get (e : Engine) (name : String) (col : Collection)
    (h : e.collections.get name = some col) : e.GetCollection name = (col, e) := by
  unfold Engine.GetCollection
  rw [h]

theorem Engine.storeDocuments_get_self (e : Engine) (name : String) (col : Collection)
    (docs : GoMap Document) :
    (e.storeDocuments name col docs).collections.get name
      = some { col with Documents := docs } := by
  simp [Engine.storeDocuments]

theorem Engine.storeDocuments_idem (e : Engine) (name : String) (col : Collection)
    (docs : GoMap Document) :
    (e.storeDocuments name col docs).storeDocuments name { col with Documents := docs } docs
      = e.storeDocuments name col docs := by
  unfold Engine.storeDocuments
  simp only [GoMap.set_set]

theorem Engine.applyEntry_insert (s : Engine) (entry : WALEntry)
    (hi : entry.Operation = "INSERT") :
    s.applyEntry entry
      = (s.GetCollection entry.Collection).2.storeDocuments entry.Collection
          (s.GetCollection entry.Collection).1
          ((s.GetCollection entry.Collection).1.Documents.set entry.DocumentID
            (replayedDocument entry)) := by
  unfold Engine.applyEntry
  simp only [if_pos hi]
  rfl

theorem Engine.applyEntry_delete (s : Engine) (entry : WALEntry)
    (hd : entry.Operation = "DELETE") :
    s.applyEntry entry
      = (s.GetCollection entry.Collection).2.storeDocuments entry.Collection
          (s.GetCollection entry.Collection).1
          ((s.GetCollection entry.Collection).1.Documents.delete entry.DocumentID) := by
  have hi : ¬ entry.Operation = "INSERT" := by rw [hd]; decide
  unfold Engine.applyEntry
  simp only [if_neg hi, if_pos hd]

theorem Engine.applyEntry_other (s : Engine) (entry : WALEntry)
    (hi : ¬ entry.Operation = "INSERT") (hd : ¬ entry.Operation = "DELETE") :
    s.applyEntry entry = (s.GetCollection entry.Collection).2 := by
  unfold Engine.applyEntry
  simp only [if_neg hi, if_neg hd]

/-- Applying an entry a second time changes nothing. -/
theorem Engine.applyEntry_applyEntry (s : Engine) (entry : WALEntry) :
    (s.applyEntry entry).applyEntry entry = s.applyEntry entry := by
  by_cases hi : entry.Operation = "INSERT"
  · rw [Engine.applyEntry_insert (s.applyEntry entry) entry hi]
    have hg : (s.applyEntry entry).GetCollection entry.Collection
        = ({ (s.GetCollection entry.Collection).1 with
              Documents := (s.GetCollection entry.Collection).1.Documents.set
                entry.DocumentID (replayedDocument entry) }, s.applyEntry entry) := by
      apply Engine.GetCollection_of_get
      rw [Engine.applyEntry_insert s entry hi]
      exact Engine.storeDocuments_get_self _ _ _ _
    rw [hg]
    simp only [GoMap.set_set]
    rw [Engine.applyEntry_insert s entry hi]
    exact Engine.storeDocuments_idem _ _ _ _
  · by_cases hd : entry.Operation = "DELETE"
    · rw [Engine.applyEntry_delete (s.applyEntry entry) entry hd]
      have hg : (s.applyEntry entry).GetCollection entry.Collection
          = ({ (s.GetCollection entry.Collection).1 with
                Documents := (s.GetCollection entry.Collection).1.Documents.delete
                  entry.DocumentID }, s.applyEntry entry) := by
        apply Engine.GetCollection_of_get
        rw [Engine.applyEntry_delete s entry hd]
        exact Engine.storeDocuments_get_self _ _ _ _
      rw [hg]
      simp only [GoMap.delete_delete]
      rw [Engine.applyEntry_delete s entry hd]
      exact Engine.storeDocuments_idem _ _ _ _
    · rw [Engine.applyEntry_other (s.applyEntry entry) entry hi hd,
        Engine.applyEntry_other s entry hi hd,
        Engine.GetCollection_of_get _ _ _ (Engine.GetCollection_get_self s entry.Collection)]

theorem lastWriteFor_append (c id : String) (es : List WALEntry) (entry : WALEntry) :
    lastWriteFor c id (es ++ [entry])
      = if entry.Collection = c ∧ entry.DocumentID = id
            ∧ (entry.Operation = "INSERT" ∨ entry.Operation = "DELETE") then some entry
        else lastWriteFor c id es := by
  unfold lastWriteFor
  by_cases h : entry.Collection = c ∧ entry.DocumentID = id
      ∧ (entry.Operation = "INSERT" ∨ entry.Operation = "DELETE")
  · simp [List.filter_append, h, List.filter_cons]
  · simp [List.filter_append, h, List.filter_cons]

/-- The document under `(c, id)` after a replay, whatever the operations of the log. -/
theorem Engine.lookup_replay_writes (s : Engine) (es : List WALEntry) (c id : String) :
    (s.replay es).lookup c id
      = match lastWriteFor c id es with
        | some entry =>
          if entry.Operation = "INSERT" then some (replayedDocument entry) else none
        | none => s.lookup c id := by
  induction es using List.reverseRecOn with
  | nil => simp [Engine.replay, lastWriteFor]
  | append_singleton es entry ih =>
    have hrep : s.replay (es ++ [entry]) = (s.replay es).applyEntry entry := by
      simp [Engine.replay, List.foldl_append]
    rw [hrep, Engine.lookup_applyEntry, lastWriteFor_append]
    by_cases hce : entry.Collection = c ∧ entry.DocumentID = id
    · by_cases hi : entry.Operation = "INSERT"
      · simp [hce, hi]
      · by_cases hd : entry.Operation = "DELETE"
        · simp [hce, hi, hd]
        · simp only [hce, and_self, if_true, hi, hd, if_false, or_self, and_false]
          exact ih
    · have hne : ¬ (entry.Collection = c ∧ entry.DocumentID = id
          ∧ (entry.Operation = "INSERT" ∨ entry.Operation = "DELETE")) :=
        fun h => hce ⟨h.1, h.2.1⟩
      simp only [hce, hne, if_false]
      exact ih

theorem GoMap.mem_keys_iff {V : Type} (m : GoMap V) (key : String) :
    key ∈ m.keys ↔ (m.get key).isSome = true := by
  rw [← not_iff_not, ← GoMap.get_eq_none_iff]
  cases m.get key <;> simp

theorem GoMap.mem_keys_set {V : Type} (m : GoMap V) (key : String) (v : V) (a : String) :
    a ∈ (m.set key v).keys ↔ a = key ∨ a ∈ m.keys := by
  rw [GoMap.mem_keys_iff, GoMap.mem_keys_iff, GoMap.get_set]
  by_cases h : key = a
  · simp [h]
  · have h' : ¬ a = key := fun h' => h h'.symm
    simp [h, h']

theorem Engine.mem_keys_GetCollection (e : Engine) (name a : String) :
    a ∈ (e.GetCollection name).2.collections.keys ↔ a = name ∨ a ∈ e.collections.keys := by
  unfold Engine.GetCollection
  cases hg : e.collections.get name with
  | none => exact GoMap.mem_keys_set _ _ _ _
  | some col =>
    constructor
    · exact Or.inr
    · rintro (h | h)
      · rw [h, GoMap.mem_keys_iff, hg]
        rfl
      · exact h

theorem Engine.mem_keys_storeDocuments (e : Engine) (name : String) (col : Collection)
    (docs : GoMap Document) (a : String) :
    a ∈ (e.storeDocuments name col docs).collections.keys
      ↔ a = name ∨ a ∈ e.collections.keys :=
  GoMap.mem_keys_set _ _ _ _

theorem Engine.mem_keys_applyEntry (s : Engine) (entry : WALEntry) (a : String) :
    a ∈ (s.applyEntry entry).collections.keys
      ↔ a = entry.Collection ∨ a ∈ s.collections.keys := by
  by_cases hi : entry.Operation = "INSERT"
  · rw [Engine.applyEntry_insert s entry hi, Engine.mem_keys_storeDocuments,
      Engine.mem_keys_GetCollection]
    tauto
  · by_cases hd : entry.Operation = "DELETE"
    · rw [Engine.applyEntry_delete s entry hd, Engine.mem_keys_storeDocuments,
        Engine.mem_keys_GetCollection]
      tauto
    · rw [Engine.applyEntry_other s entry hi hd, Engine.mem_keys_GetCollection]

theorem Engine.mem_keys_replay (s : Engine) (es : List WALEntry) (a : String) :
    a ∈ (s.replay es).collections.keys
      ↔ a ∈ s.collections.keys ∨ ∃ entry ∈ es, entry.Collection = a := by
  induction es generalizing s with
  | nil => simp [Engine.replay]
  | cons entry rest ih =>
    have hrep : s.replay (entry :: rest) = (s.applyEntry entry).replay rest := rfl
    rw [hrep, ih, Engine.mem_keys_applyEntry]
    constructor
    · rintro ((h | h) | ⟨x, hx, hxc⟩)
      · exact Or.inr ⟨entry, List.mem_cons_self _ _, h.symm⟩
      · exact Or.inl h
      · exact Or.inr ⟨x, List.mem_cons_of_mem _ hx, hxc⟩
    · rintro (h | ⟨x, hx, hxc⟩)
      · exact Or.inl (Or.inr h)
      · rcases List.mem_cons.mp hx with hx | hx
        · subst hx
          exact Or.inl (Or.inl hxc.symm)
        · exact Or.inr ⟨x, hx, hxc⟩

theorem mem_iff_lookupKey {V : Type} (l : List (String × V)) (h : (l.map Prod.fst).Nodup)
    (key : String) (v : V) : (key, v) ∈ l ↔ lookupKey key l = some v := by
  induction l with
  | nil => simp [lookupKey]
  | cons p rest ih =>
    obtain ⟨k, x⟩ := p
    simp only [List.map_cons, List.nodup_cons] at h
    by_cases hk : k = key
    · subst hk
      simp only [lookupKey, if_true, Option.some.injEq, List.mem_cons, Prod.mk.injEq,
        true_and]
      constructor
      · rintro (hv | hmem)
        · exact hv.symm
        · exact absurd (List.mem_map_of_mem Prod.fst hmem) h.1
      · intro hv
        exact Or.inl hv.symm
    · have hk' : ¬ key = k := fun h' => hk h'.symm
      simp [lookupKey, hk, hk', ih h.2]

/-- Two maps that answer every lookup alike hold the same bindings. -/
theorem GoMap.perm_of_get_eq {V : Type} (m m' : GoMap V) (h : ∀ key, m.get key = m'.get key) :
    m.entries.Perm m'.entries := by
  rw [List.perm_ext_iff_of_nodup (List.Nodup.of_map _ m.nodup) (List.Nodup.of_map _ m'.nodup)]
  rintro ⟨key, v⟩
  rw [mem_iff_lookupKey _ m.nodup, mem_iff_lookupKey _ m'.nodup]
  have := h key
  unfold GoMap.get at this
  rw [this]

/-- C11: replay is idempotent. Applying an entry twice gives the very state applying it
once gives (an INSERT overwrites the document it stored, a DELETE finds the ID absent);
and replaying a list `L` again from the state a replay of `L` reached gives the same
collections and documents: every `GetDocument` answers alike, the engine knows the same
collection names, and every collection holds the same documents. -/
theorem replay_idempotent (s : Engine) (entry : WALEntry) (L : List WALEntry) :
    (s.applyEntry entry).applyEntry entry = s.applyEntry entry
    ∧ s.replay [entry, entry] = s.replay [entry]
    ∧ (∀ c id : String,
        (((s.replay L).replay L).GetDocument c id).1 = ((s.replay L).GetDocument c id).1)
    ∧ ((s.replay L).replay L).collections.keys.Perm (s.replay L).collections.keys
    ∧ (∀ c : String,
        (((s.replay L).replay L).GetCollection c).1.Documents.entries.Perm
          ((s.replay L).GetCollection c).1.Documents.entries) := by
  have hlook : ∀ c id : String,
      ((s.replay L).replay L).lookup c id = (s.replay L).lookup c id := by
    intro c id
    rw [Engine.lookup_replay_writes (s.replay L) L c id]
    cases hl : lastWriteFor c id L with
    | none => rfl
    | some e =>
      simp only
      rw [Engine.lookup_replay_writes s L c id, hl]
  refine ⟨Engine.applyEntry_applyEntry s entry, ?_, ?_, ?_, ?_⟩
  · show (s.applyEntry entry).applyEntry entry = s.applyEntry entry
    exact Engine.applyEntry_applyEntry s entry
  · intro c id
    rw [Engine.GetDocument_fst, Engine.GetDocument_fst]
    exact hlook c id
  · refine (@List.perm_ext_iff_of_nodup _ ((s.replay L).replay L).collections.keys
      (s.replay L).collections.keys ((s.replay L).replay L).collections.nodup
      (s.replay L).collections.nodup).mpr ?_
    intro a
    rw [Engine.mem_keys_replay (s.replay L) L a, Engine.mem_keys_replay s L a]
    tauto
  · intro c
    apply GoMap.perm_of_get_eq
    intro id
    rw [Engine.GetCollection_documents, Engine.GetCollection_documents]
    exact hlook c id

/-! ## Collections created by reads -/

theorem replaceKey_keys_of_mem {V : Type} (key : String) (v : V) (l : List (String × V))
    (h : key ∈ l.map Prod.fst) : (replaceKey key v l).map Prod.fst = l.map Prod.fst := by
  induction l with
  | nil => simp at h
  | cons p rest ih =>
    obtain ⟨k, x⟩ := p
    by_cases hk : k = key
    · simp [replaceKey, hk]
    · have hmem : key ∈ rest.map Prod.fst := by
        simp only [List.map_cons, List.mem_cons] at h
        rcases h with h | h
        · exact absurd h.symm hk
        · exact h
      simp [replaceKey, hk, ih hmem]

theorem GoMap.keys_set_of_mem {V : Type} (m : GoMap V) (key : String) (v : V)
    (h : key ∈ m.keys) : (m.set key v).keys = m.keys :=
  replaceKey_keys_of_mem key v m.entries h

theorem Engine.ListCollections_eq (e : Engine) (order : List String) :
    e.ListCollections order = (e.collections.range order).map Prod.fst := by
  have hgen : ∀ (l : List (String × Collection)) (acc : List String),
      l.foldl (fun names p => names ++ [p.1]) acc = acc ++ l.map Prod.fst := by
    intro l
    induction l with
    | nil => intro acc; simp
    | cons p rest ih => intro acc; simp [ih]
  unfold Engine.ListCollections
  rw [hgen, List.nil_append]

/-- The names `ListCollections` reports are the keys of the map, each once. -/
theorem Engine.ListCollections_perm (e : Engine) (order : List String)
    (h : e.collections.RangeOrder order) : (e.ListCollections order).Perm e.collections.keys := by
  rw [Engine.ListCollections_eq]
  exact (GoMap.range_perm _ order h).map Prod.fst

theorem Engine.GetCollection_fst_of_not_mem (e : Engine) (name : String)
    (h : name ∉ e.collections.keys) :
    (e.GetCollection name).1 = { Name := name, Documents := GoMap.empty } := by
  unfold Engine.GetCollection
  rw [(GoMap.get_eq_none_iff _ _).mpr h]

theorem Engine.lookup_of_not_mem (e : Engine) (name id : String)
    (h : name ∉ e.collections.keys) : e.lookup name id = none := by
  unfold Engine.lookup
  rw [(GoMap.get_eq_none_iff _ _).mpr h]
  rfl

theorem Engine.DeleteDocument_of_absent (e : Engine) (c id : String) (now : Time)
    (io : WriteOutcome) (h : e.lookup c id = none) :
    e.DeleteDocument c id now io = (false, (e.GetCollection c).2) := by
  rw [Engine.DeleteDocument_eq, h]
  rfl

theorem Engine.DeleteDocument_keys_of_mem (e : Engine) (c id : String) (now : Time)
    (io : WriteOutcome) (h : c ∈ e.collections.keys) :
    (e.DeleteDocument c id now io).2.collections.keys = e.collections.keys := by
  rw [Engine.DeleteDocument_eq]
  cases (e.lookup c id).isSome
  · simp only [Bool.false_eq_true, if_false]
    rw [Engine.GetCollection_of_mem e c h]
  · simp only [if_true]
    rw [Engine.GetCollection_of_mem e c h]
    exact GoMap.keys_set_of_mem _ _ _ h

/-- What the engine looks like after a name it did not know was referenced. -/
theorem Engine.GetCollection_new (e : Engine) (c : String) (h : c ∉ e.collections.keys) :
    (e.GetCollection c).2.wal = e.wal
    ∧ (e.GetCollection c).2.collections.entries
        = e.collections.entries ++ [(c, { Name := c, Documents := GoMap.empty })]
    ∧ (∀ c' id' : String,
        ((e.GetCollection c).2.GetDocument c' id').1 = (e.GetDocument c' id').1)
    ∧ (∀ c' : String, c' ≠ c →
        (e.GetCollection c).2.collections.get c' = e.collections.get c')
    ∧ (∀ names : List String, (e.GetCollection c).2.collections.RangeOrder names →
        ((e.GetCollection c).2.ListCollections names).Perm (e.collections.keys ++ [c])
        ∧ ((e.GetCollection c).2.ListCollections names).count c = 1) := by
  have hentries := Engine.GetCollection_of_not_mem e c h
  have hkeys : (e.GetCollection c).2.collections.keys = e.collections.keys ++ [c] := by
    unfold GoMap.keys
    rw [hentries]
    simp
  refine ⟨Engine.GetCollection_wal e c, hentries, ?_, ?_, ?_⟩
  · intro c' id'
    rw [Engine.GetDocument_fst, Engine.GetDocument_fst]
    exact Engine.GetCollection_lookup e c c' id'
  · intro c' hne
    exact Engine.GetCollection_get_ne e c c' (fun h' => hne h'.symm)
  · intro names hnames
    have hperm := Engine.ListCollections_perm _ names hnames
    rw [hkeys] at hperm
    refine ⟨hperm, ?_⟩
    rw [hperm.count_eq]
    have hnd : (e.collections.keys ++ [c]).Nodup := by
      rw [← hkeys]
      exact (e.GetCollection c).2.collections.nodup
    exact List.count_eq_one_of_mem hnd (by simp)

/-- C12: reads create collections lazily. For a name `c` the engine does not know,
`GetDocument`, `QueryDocuments` and `DeleteDocument` report no document (not found,
empty result, false), leave the WAL as it is, and leave an engine in which `c` is a
new empty collection, every other collection and every document lookup is unchanged,
and `ListCollections` reports the earlier names and `c`, `c` exactly once. For a name
the engine knows, the three calls leave the collection names as they are. -/
theorem reads_create_collection_lazily (e : Engine) (c id : String) (filter : Option Fields)
    (limit : Int) (order : List String) (now : Time) (io : WriteOutcome) :
    (c ∉ e.collections.keys →
      (e.GetDocument c id).1 = none
      ∧ (e.QueryDocuments c filter limit order).1 = []
      ∧ (e.DeleteDocument c id now io).1 = false
      ∧ ∀ e' ∈ [(e.GetDocument c id).2, (e.QueryDocuments c filter limit order).2,
            (e.DeleteDocument c id now io).2],
          e'.wal = e.wal
          ∧ e'.collections.entries
              = e.collections.entries ++ [(c, { Name := c, Documents := GoMap.empty })]
          ∧ (∀ c' id' : String, (e'.GetDocument c' id').1 = (e.GetDocument c' id').1)
          ∧ (∀ c' : String, c' ≠ c → e'.collections.get c' = e.collections.get c')
          ∧ (∀ names : List String, e'.collections.RangeOrder names →
              (e'.ListCollections names).Perm (e.collections.keys ++ [c])
              ∧ (e'.ListCollections names).count c = 1))
    ∧ (c ∈ e.collections.keys →
      (e.GetDocument c id).2.collections.keys = e.collections.keys
      ∧ (e.QueryDocuments c filter limit order).2.collections.keys = e.collections.keys
      ∧ (e.DeleteDocument c id now io).2.collections.keys = e.collections.keys) := by
  constructor
  · intro hc
    have hlook : e.lookup c id = none := Engine.lookup_of_not_mem e c id hc
    have hdel := Engine.DeleteDocument_of_absent e c id now io hlook
    refine ⟨?_, ?_, ?_, ?_⟩
    · rw [Engine.GetDocument_fst, hlook]
    · rw [Engine.QueryDocuments_fst, Engine.GetCollection_fst_of_not_mem e c hc]
      have hr : (GoMap.empty : GoMap Document).range order = [] := by
        unfold GoMap.range
        simp
      rw [hr]
      rfl
    · rw [hdel]
    · intro e' he'
      have hpost : e' = (e.GetCollection c).2 := by
        simp only [List.mem_cons, List.mem_singleton, List.not_mem_nil, or_false] at he'
        rcases he' with h | h | h
        · rw [h]; rfl
        · rw [h]; rfl
        · rw [h, hdel]
      rw [hpost]
      exact Engine.GetCollection_new e c hc
  · intro hc
    refine ⟨?_, ?_, Engine.DeleteDocument_keys_of_mem e c id now io hc⟩
    · show (e.GetCollection c).2.collections.keys = e.collections.keys
      rw [Engine.GetCollection_of_mem e c hc]
    · show (e.GetCollection c).2.collections.keys = e.collections.keys
      rw [Engine.GetCollection_of_mem e c hc]

/-- C12 at an engine without collections and the name `users`. -/
theorem reads_create_collection_lazily_witness :
    "users" ∉ (Engine.mk GoMap.empty ⟨[]⟩).collections.keys
    ∧ ((Engine.mk GoMap.empty ⟨[]⟩).GetDocument "users" "u1").1 = none
    ∧ ((Engine.mk GoMap.empty ⟨[]⟩).QueryDocuments "users" none 0 []).1 = []
    ∧ ((Engine.mk GoMap.empty ⟨[]⟩).DeleteDocument "users" "u1" 0 WriteOutcome.ok).1 = false :=
  ⟨by decide,
    ((reads_create_collection_lazily (Engine.mk GoMap.empty ⟨[]⟩) "users" "u1" none 0 [] 0
      WriteOutcome.ok).1 (by decide)).1,
    ((reads_create_collection_lazily (Engine.mk GoMap.empty ⟨[]⟩) "users" "u1" none 0 [] 0
      WriteOutcome.ok).1 (by decide)).2.1,
    ((reads_create_collection_lazily (Engine.mk GoMap.empty ⟨[]⟩) "users" "u1" none 0 [] 0
      WriteOutcome.ok).1 (by decide)).2.2.1⟩

end HelixDB
